import Mathlib

/-!
# Row lifecycle of the loom inference engine

Shallow embedding of `src/loom.cc`: the assignment store, the row-level
add / try-add / remove operations, the dual-cursor row stream, the multi-pass
drivers and `predict_row`.

The probability capabilities (scoring, sampling, sufficient statistics, the
packed/global id tracker) are external collaborators of `loom.cc`; they are
taken as a record of functions, `Capabilities`.  Random state is threaded
explicitly: every operation that receives `rng_t &` takes a generator state and
returns the next one.  `none` stands for a fatal stop (failed assertion or an
out-of-range access) and, in the loops that carry fuel, for exhausted fuel.

Classes whose headers are not among the sources (the assignment store, the
file streams) are modelled from the specification and marked as such; the
annealing schedule is a parameter.
-/

namespace loom

/-! ## Data model -/

/-- Row of the row log (`protobuf::SparseRow`): an id and a sparse value. -/
structure SparseRow (V : Type) where
  id : Nat
  data : V
deriving DecidableEq, Repr

/-- One kind of the cross-categorisation: `kind.model` and `kind.mixture`. -/
structure Kind (Mo Mx : Type) where
  model : Mo
  mixture : Mx
deriving DecidableEq, Repr

/-- The partition structure `cross_cat_`: the kinds and the feature to kind map. -/
structure CrossCat (Mo Mx : Type) where
  kinds : List (Kind Mo Mx)
  featureid_to_kindid : List Nat
deriving DecidableEq, Repr

/-- One shadow kind of `algorithm8_`: a mixture over full row values. -/
structure FullKind (Mx : Type) where
  mixture : Mx
deriving DecidableEq, Repr

/-- The shadow state `algorithm8_`: the full model and one full mixture per kind. -/
structure Algorithm8 (Mo Mx : Type) where
  model : Mo
  kinds : List (FullKind Mx)
deriving DecidableEq, Repr

/-- Capabilities `loom.cc` requires from the mixture / model collaborators.
`value_part fmap v i` is entry `i` of what `cross_cat_.value_split` writes. -/
structure Capabilities (V Mo Mx R Sc : Type) where
  value_part : List Nat → V → Nat → V
  score : Mx → Mo → V → R → Sc × R
  sample_from_scores_overwrite : R → Sc → Nat × Sc × R
  add_value : Mx → Mo → Nat → V → R → Mx × R
  remove_value : Mx → Mo → Nat → V → R → Mx × R
  packed_to_global : Mx → Nat → Nat
  global_to_packed : Mx → Nat → Nat
  is_valid : V → Bool
  observed_size : V → Nat
  sample_of_observed : List Bool → V
  value_resize : List Nat → V → V
  total_size : V → Nat
  scores_to_probs : Sc → Sc
  sample_value : Mx → Mo → Sc → V → R → V × R
  value_join : List Nat → List V → V
  infer_hypers : CrossCat Mo Mx → R → CrossCat Mo Mx × R

/-! ## Assignment store -/

/-- Modelled from the spec: the class `Assignments` (assignments.hpp is not part
of the sources).  A row-id log and one global-group-id log per kind, each an
ordered sequence appended in row-arrival order. -/
structure Assignments where
  rowids : List Nat
  groupids : List (List Nat)
deriving DecidableEq, Repr

namespace Assignments

/-- Modelled from the spec: `Assignments::init(kind_count)`, an empty store whose
width is the kind count. -/
def init (kind_count : Nat) : Assignments :=
  { rowids := [], groupids := List.replicate kind_count [] }

/-- Modelled from the spec: `Assignments::size()`, the number of assigned rows. -/
def size (a : Assignments) : Nat := a.rowids.length

/-- Modelled from the spec: `Assignments::dim()`, the per-row assignment width. -/
def dim (a : Assignments) : Nat := a.groupids.length

/-- Modelled from the spec: `rowids().try_push(id)`.  "If the id is already
present, refuses and returns false with no mutation"; otherwise the id is
appended. -/
def try_push (log : List Nat) (id : Nat) : Bool × List Nat :=
  if id ∈ log then (false, log) else (true, log ++ [id])

/-- Modelled from the spec: `groupids(i).push(g)`, append in row-arrival order. -/
def push (log : List Nat) (g : Nat) : List Nat := log ++ [g]

/-- Modelled from the spec: `pop()` on a log of the store.  "Pops the most
recently appended" entry (stack discipline); popping an empty log is fatal. -/
def pop (log : List Nat) : Option (Nat × List Nat) :=
  match log.getLast? with
  | none => none
  | some g => some (g, log.dropLast)

/-- Modelled from the spec: `rowids().back()`, the most recently assigned id. -/
def back (a : Assignments) : Option Nat := a.rowids.getLast?

/-- Modelled from the spec: `rowids().front()`, the earliest assigned id. -/
def front (a : Assignments) : Option Nat := a.rowids.head?

end Assignments

/-! ## Loom state -/

/-- The members of `class Loom` that the row operations read or write. -/
structure Loom (V Mo Mx Sc : Type) where
  cross_cat_ : CrossCat Mo Mx
  algorithm8_ : Algorithm8 Mo Mx
  assignments_ : Assignments
  factors_ : List V
  scores_ : Sc
deriving DecidableEq, Repr

section Ops

variable {V Mo Mx R Sc : Type}

/-- The `cross_cat_.value_split(value, factors_)` call: one part per kind. -/
def CrossCat.value_split (cap : Capabilities V Mo Mx R Sc) (cc : CrossCat Mo Mx) (value : V) :
    List V :=
  (List.range cc.kinds.length).map (cap.value_part cc.featureid_to_kindid value)

/-- Constructor `Loom::Loom` without `groups_in` / `assign_in`: the model and
the empty mixtures are given as `cc`; the store is initialised to the kind
count.  An empty loom is a fatal assertion. -/
def Loom.create (cc : CrossCat Mo Mx) (alg8 : Algorithm8 Mo Mx) (value0 : V) (scores0 : Sc) :
    Option (Loom V Mo Mx Sc) :=
  let kind_count := cc.kinds.length
  if kind_count = 0 then none
  else some
    { cross_cat_ := cc
      algorithm8_ := alg8
      assignments_ := Assignments.init kind_count
      factors_ := List.replicate kind_count value0
      scores_ := scores0 }

/-- Loop body of `Loom::add_row_noassign` over kinds `i = 0 .. kind_count-1`,
walking `kinds[i]` and `factors_[i]` together. -/
def add_row_noassign_kinds (cap : Capabilities V Mo Mx R Sc) :
    List (Kind Mo Mx) → List V → Sc → R → Option (List (Kind Mo Mx) × Sc × R)
  | [], _, sc, rng => some ([], sc, rng)
  | kind :: kinds, value :: factors, _, rng =>
    let (sc1, rng1) := cap.score kind.mixture kind.model value rng
    let (groupid, sc2, rng2) := cap.sample_from_scores_overwrite rng1 sc1
    let (mixture, rng3) := cap.add_value kind.mixture kind.model groupid value rng2
    match add_row_noassign_kinds cap kinds factors sc2 rng3 with
    | none => none
    | some (kinds1, sc3, rng4) => some ({ kind with mixture := mixture } :: kinds1, sc3, rng4)
  | _ :: _, [], _, _ => none

/-- `Loom::add_row_noassign`. -/
def add_row_noassign (cap : Capabilities V Mo Mx R Sc) (rng : R) (row : SparseRow V)
    (s : Loom V Mo Mx Sc) : Option (Loom V Mo Mx Sc × R) :=
  let factors := s.cross_cat_.value_split cap row.data
  match add_row_noassign_kinds cap s.cross_cat_.kinds factors s.scores_ rng with
  | none => none
  | some (kinds, sc, rng1) =>
    some ({ s with cross_cat_ := { s.cross_cat_ with kinds := kinds },
                   factors_ := factors, scores_ := sc }, rng1)

/-- The message `protobuf::Assignment` written by `add_row`. -/
structure Assignment where
  rowid : Nat
  groupids : List Nat
deriving DecidableEq, Repr

/-- Loop of `Loom::add_row`: as `add_row_noassign`, and each iteration appends
the sampled `groupid` to `assignment_out`. -/
def add_row_kinds (cap : Capabilities V Mo Mx R Sc) :
    List (Kind Mo Mx) → List V → List Nat → Sc → R →
      Option (List (Kind Mo Mx) × List Nat × Sc × R)
  | [], _, out, sc, rng => some ([], out, sc, rng)
  | kind :: kinds, value :: factors, out, _, rng =>
    let (sc1, rng1) := cap.score kind.mixture kind.model value rng
    let (groupid, sc2, rng2) := cap.sample_from_scores_overwrite rng1 sc1
    let (mixture, rng3) := cap.add_value kind.mixture kind.model groupid value rng2
    match add_row_kinds cap kinds factors (out ++ [groupid]) sc2 rng3 with
    | none => none
    | some (kinds1, out1, sc3, rng4) =>
      some ({ kind with mixture := mixture } :: kinds1, out1, sc3, rng4)
  | _ :: _, [], _, _, _ => none

/-- `Loom::add_row`: returns the assignment record, the next state and generator. -/
def add_row (cap : Capabilities V Mo Mx R Sc) (rng : R) (row : SparseRow V)
    (s : Loom V Mo Mx Sc) : Option (Assignment × Loom V Mo Mx Sc × R) :=
  let factors := s.cross_cat_.value_split cap row.data
  match add_row_kinds cap s.cross_cat_.kinds factors [] s.scores_ rng with
  | none => none
  | some (kinds, out, sc, rng1) =>
    some ({ rowid := row.id, groupids := out },
          { s with cross_cat_ := { s.cross_cat_ with kinds := kinds },
                   factors_ := factors, scores_ := sc }, rng1)

/-- Loop of `Loom::try_add_row`, walking `kinds[i]`, `factors_[i]` and
`assignments_.groupids(i)` together.  A store narrower than the kind count is
an out-of-range access. -/
def try_add_row_kinds (cap : Capabilities V Mo Mx R Sc) :
    List (Kind Mo Mx) → List V → List (List Nat) → Sc → R →
      Option (List (Kind Mo Mx) × List (List Nat) × Sc × R)
  | [], _, logs, sc, rng => some ([], logs, sc, rng)
  | kind :: kinds, value :: factors, log :: logs, _, rng =>
    let (sc1, rng1) := cap.score kind.mixture kind.model value rng
    let (groupid, sc2, rng2) := cap.sample_from_scores_overwrite rng1 sc1
    let (mixture, rng3) := cap.add_value kind.mixture kind.model groupid value rng2
    let global_groupid := cap.packed_to_global mixture groupid
    match try_add_row_kinds cap kinds factors logs sc2 rng3 with
    | none => none
    | some (kinds1, logs1, sc3, rng4) =>
      some ({ kind with mixture := mixture } :: kinds1,
            Assignments.push log global_groupid :: logs1, sc3, rng4)
  | _ :: _, [], _, _, _ => none
  | _ :: _, _ :: _, [], _, _ => none

/-- `Loom::try_add_row`. -/
def try_add_row (cap : Capabilities V Mo Mx R Sc) (rng : R) (row : SparseRow V)
    (s : Loom V Mo Mx Sc) : Option (Bool × Loom V Mo Mx Sc × R) :=
  let (pushed, rowids) := Assignments.try_push s.assignments_.rowids row.id
  let s1 := { s with assignments_ := { s.assignments_ with rowids := rowids } }
  let already_added := !pushed
  if already_added then some (false, s1, rng)
  else
    let factors := s1.cross_cat_.value_split cap row.data
    match try_add_row_kinds cap s1.cross_cat_.kinds factors s1.assignments_.groupids
        s1.scores_ rng with
    | none => none
    | some (kinds, logs, sc, rng1) =>
      some (true,
        { s1 with cross_cat_ := { s1.cross_cat_ with kinds := kinds },
                  assignments_ := { s1.assignments_ with groupids := logs },
                  factors_ := factors, scores_ := sc }, rng1)

/-- Loop of `Loom::try_add_row_algorithm8`, walking `cross_cat_.kinds[i]`,
`factors_[i]`, `algorithm8_.kinds[i]` and `assignments_.groupids(i)` together. -/
def try_add_row_algorithm8_kinds (cap : Capabilities V Mo Mx R Sc) (full_model : Mo)
    (full_value : V) :
    List (Kind Mo Mx) → List V → List (FullKind Mx) → List (List Nat) → Sc → R →
      Option (List (Kind Mo Mx) × List (FullKind Mx) × List (List Nat) × Sc × R)
  | [], _, fulls, logs, sc, rng => some ([], fulls, logs, sc, rng)
  | kind :: kinds, partial_value :: factors, full :: fulls, log :: logs, _, rng =>
    let (sc1, rng1) := cap.score kind.mixture kind.model partial_value rng
    let (groupid, sc2, rng2) := cap.sample_from_scores_overwrite rng1 sc1
    let (partial_mixture, rng3) :=
      cap.add_value kind.mixture kind.model groupid partial_value rng2
    let (full_mixture, rng4) := cap.add_value full.mixture full_model groupid full_value rng3
    let global_groupid := cap.packed_to_global partial_mixture groupid
    match try_add_row_algorithm8_kinds cap full_model full_value kinds factors fulls logs
        sc2 rng4 with
    | none => none
    | some (kinds1, fulls1, logs1, sc3, rng5) =>
      some ({ kind with mixture := partial_mixture } :: kinds1,
            { full with mixture := full_mixture } :: fulls1,
            Assignments.push log global_groupid :: logs1, sc3, rng5)
  | _ :: _, [], _, _, _, _ => none
  | _ :: _, _ :: _, [], _, _, _ => none
  | _ :: _, _ :: _, _ :: _, [], _, _ => none

/-- `Loom::try_add_row_algorithm8`. -/
def try_add_row_algorithm8 (cap : Capabilities V Mo Mx R Sc) (rng : R) (row : SparseRow V)
    (s : Loom V Mo Mx Sc) : Option (Bool × Loom V Mo Mx Sc × R) :=
  let (pushed, rowids) := Assignments.try_push s.assignments_.rowids row.id
  let s1 := { s with assignments_ := { s.assignments_ with rowids := rowids } }
  let already_added := !pushed
  if already_added then some (false, s1, rng)
  else
    let full_model := s1.algorithm8_.model
    let full_value := row.data
    let factors := s1.cross_cat_.value_split cap full_value
    if s1.cross_cat_.kinds.length ≠ s1.algorithm8_.kinds.length then none
    else
      match try_add_row_algorithm8_kinds cap full_model full_value s1.cross_cat_.kinds factors
          s1.algorithm8_.kinds s1.assignments_.groupids s1.scores_ rng with
      | none => none
      | some (kinds, fulls, logs, sc, rng1) =>
        some (true,
          { s1 with cross_cat_ := { s1.cross_cat_ with kinds := kinds },
                    algorithm8_ := { s1.algorithm8_ with kinds := fulls },
                    assignments_ := { s1.assignments_ with groupids := logs },
                    factors_ := factors, scores_ := sc }, rng1)

/-- Loop of `Loom::remove_row`, walking `kinds[i]`, `factors_[i]` and
`assignments_.groupids(i)` together. -/
def remove_row_kinds (cap : Capabilities V Mo Mx R Sc) :
    List (Kind Mo Mx) → List V → List (List Nat) → R →
      Option (List (Kind Mo Mx) × List (List Nat) × R)
  | [], _, logs, rng => some ([], logs, rng)
  | kind :: kinds, value :: factors, log :: logs, rng =>
    match Assignments.pop log with
    | none => none
    | some (global_groupid, log1) =>
      let groupid := cap.global_to_packed kind.mixture global_groupid
      let (mixture, rng1) := cap.remove_value kind.mixture kind.model groupid value rng
      match remove_row_kinds cap kinds factors logs rng1 with
      | none => none
      | some (kinds1, logs1, rng2) =>
        some ({ kind with mixture := mixture } :: kinds1, log1 :: logs1, rng2)
  | _ :: _, [], _, _ => none
  | _ :: _, _ :: _, [], _ => none

/-- `Loom::remove_row`. -/
def remove_row (cap : Capabilities V Mo Mx R Sc) (rng : R) (row : SparseRow V)
    (s : Loom V Mo Mx Sc) : Option (Loom V Mo Mx Sc × R) :=
  match Assignments.pop s.assignments_.rowids with
  | none => none
  | some (_, rowids) =>
    let factors := s.cross_cat_.value_split cap row.data
    match remove_row_kinds cap s.cross_cat_.kinds factors s.assignments_.groupids rng with
    | none => none
    | some (kinds, logs, rng1) =>
      some ({ s with cross_cat_ := { s.cross_cat_ with kinds := kinds },
                     assignments_ := { rowids := rowids, groupids := logs },
                     factors_ := factors }, rng1)

/-- What one loop iteration of the add operations samples for a kind: the
result of `sample_from_scores_overwrite` on the scores of `value` against the
kind's mixture, as (packed group id, scores, generator). -/
def sampled (cap : Capabilities V Mo Mx R Sc) (kind : Kind Mo Mx) (value : V) (rng : R) :
    Nat × Sc × R :=
  cap.sample_from_scores_overwrite (cap.score kind.mixture kind.model value rng).2
    (cap.score kind.mixture kind.model value rng).1

/-- What one loop iteration of the add operations makes of a kind's mixture:
`add_value` of `value` at the sampled packed group id. -/
def added (cap : Capabilities V Mo Mx R Sc) (kind : Kind Mo Mx) (value : V) (rng : R) : Mx × R :=
  cap.add_value kind.mixture kind.model (sampled cap kind value rng).1 value
    (sampled cap kind value rng).2.2

/-! ## Row stream cursors -/

/-- Modelled from the spec: `protobuf::InFile` opened on the row log (the stream
classes are not part of the sources): the rows of the file and the index of
the next row to read. -/
structure InFile (V : Type) where
  rows : List (SparseRow V)
  pos : Nat
deriving DecidableEq, Repr

/-- Modelled from the spec: opening a file puts the cursor on its first row. -/
def InFile.start (rows_in : List (SparseRow V)) : InFile V :=
  { rows := rows_in, pos := 0 }

/-- Modelled from the spec: `InFile::cyclic_read_stream`, a read that wraps "to
the start of the log when it passes the end"; an empty log is fatal. -/
def InFile.cyclic_read_stream (f : InFile V) : Option (SparseRow V × InFile V) :=
  match f.rows[f.pos]? with
  | some row => some (row, { f with pos := f.pos + 1 })
  | none =>
    match f.rows[0]? with
    | some row => some (row, { f with pos := 1 })
    | none => none

/-- The two cursors of `class StreamInterval`. -/
structure StreamInterval (V : Type) where
  unassigned_ : InFile V
  assigned_ : InFile V
deriving DecidableEq, Repr

/-- `StreamInterval::read_unassigned`. -/
def StreamInterval.read_unassigned (si : StreamInterval V) :
    Option (SparseRow V × StreamInterval V) :=
  match si.unassigned_.cyclic_read_stream with
  | none => none
  | some (row, f) => some (row, { si with unassigned_ := f })

/-- `StreamInterval::read_assigned`. -/
def StreamInterval.read_assigned (si : StreamInterval V) :
    Option (SparseRow V × StreamInterval V) :=
  match si.assigned_.cyclic_read_stream with
  | none => none
  | some (row, f) => some (row, { si with assigned_ := f })

/-- The loop `do { read_unassigned(row); } while (row.id() != last_assigned_rowid)`
of the constructor; `none` when the fuel runs out or the read is fatal. -/
def StreamInterval.seek_unassigned :
    Nat → Nat → StreamInterval V → Option (SparseRow V × StreamInterval V)
  | 0, _, _ => none
  | fuel + 1, last_assigned_rowid, si =>
    match si.read_unassigned with
    | none => none
    | some (row, si1) =>
      if row.id ≠ last_assigned_rowid then
        StreamInterval.seek_unassigned fuel last_assigned_rowid si1
      else some (row, si1)

/-- The loop `do { read_assigned(row); } while (row.id() != first_assigned_rowid)`
of the constructor; `none` when the fuel runs out or the read is fatal. -/
def StreamInterval.seek_assigned :
    Nat → Nat → StreamInterval V → Option (SparseRow V × StreamInterval V)
  | 0, _, _ => none
  | fuel + 1, first_assigned_rowid, si =>
    match si.read_assigned with
    | none => none
    | some (row, si1) =>
      if row.id ≠ first_assigned_rowid then
        StreamInterval.seek_assigned fuel first_assigned_rowid si1
      else some (row, si1)

/-- Constructor `StreamInterval::StreamInterval(rows_in, assignments, remove_row)`.
The callable `remove_row` acts on a caller state `σ`. -/
def StreamInterval.create {σ : Type} (fuel : Nat) (rows_in : List (SparseRow V))
    (assignments : Assignments) (remove_row : SparseRow V → σ → Option σ) (st : σ) :
    Option (StreamInterval V × σ) :=
  let si : StreamInterval V :=
    { unassigned_ := InFile.start rows_in, assigned_ := InFile.start rows_in }
  if assignments.size ≠ 0 then
    match assignments.back with
    | none => none
    | some last_assigned_rowid =>
      match StreamInterval.seek_unassigned fuel last_assigned_rowid si with
      | none => none
      | some (_, si1) =>
        match assignments.front with
        | none => none
        | some first_assigned_rowid =>
          match StreamInterval.seek_assigned fuel first_assigned_rowid si1 with
          | none => none
          | some (row, si2) =>
            match remove_row row st with
            | none => none
            | some st1 => some (si2, st1)
  else some (si, st)

/-! ## Multi-pass drivers -/

/-- The class `FlushingAnnealingSchedule` (its header is not part of the
sources), taken as a parameter: construction from the row count (with
`extra_passes` fixed), and the two queries, each returning the next state. -/
structure Schedule (Sch : Type) where
  create : Nat → Sch
  next_action_is_add : Sch → Bool × Sch
  time_to_flush : Sch → Bool × Sch

/-- Local state of the `while (true)` loop of the drivers. -/
structure Driver (V Mo Mx R Sc Sch : Type) where
  loom : Loom V Mo Mx Sc
  rows : StreamInterval V
  schedule : Sch
  rng : R
deriving DecidableEq, Repr

/-- Outcome of one pass through a driver loop body: go round again, or `break`. -/
inductive Step (α : Type) where
  | next (d : α)
  | done (d : α)
deriving DecidableEq, Repr

/-- Body of the `while (true)` loop of `Loom::infer_multi_pass`. -/
def infer_multi_pass_step {Sch : Type} (cap : Capabilities V Mo Mx R Sc) (sched : Schedule Sch)
    (d : Driver V Mo Mx R Sc Sch) : Option (Step (Driver V Mo Mx R Sc Sch)) :=
  let (is_add, schedule1) := sched.next_action_is_add d.schedule
  if is_add then
    match d.rows.read_unassigned with
    | none => none
    | some (row, rows1) =>
      match try_add_row cap d.rng row d.loom with
      | none => none
      | some (added, loom1, rng1) =>
        let all_rows_assigned := !added
        let d1 := { d with loom := loom1, rows := rows1, schedule := schedule1, rng := rng1 }
        if all_rows_assigned then some (Step.done d1) else some (Step.next d1)
  else
    match d.rows.read_assigned with
    | none => none
    | some (row, rows1) =>
      match remove_row cap d.rng row d.loom with
      | none => none
      | some (loom1, rng1) =>
        let (flush, schedule2) := sched.time_to_flush schedule1
        if flush then
          let (cc, rng2) := cap.infer_hypers loom1.cross_cat_ rng1
          some (Step.next { d with loom := { loom1 with cross_cat_ := cc }, rows := rows1,
                                   schedule := schedule2, rng := rng2 })
        else
          some (Step.next { d with loom := loom1, rows := rows1, schedule := schedule2,
                                   rng := rng1 })

/-- The `while (true)` loop of `Loom::infer_multi_pass`, at most `fuel` passes;
`none` when the fuel runs out or a step is fatal. -/
def infer_multi_pass_loop {Sch : Type} (cap : Capabilities V Mo Mx R Sc) (sched : Schedule Sch) :
    Nat → Driver V Mo Mx R Sc Sch → Option (Driver V Mo Mx R Sc Sch)
  | 0, _ => none
  | fuel + 1, d =>
    match infer_multi_pass_step cap sched d with
    | none => none
    | some (Step.done d1) => some d1
    | some (Step.next d1) => infer_multi_pass_loop cap sched fuel d1

/-- Set-up of `Loom::infer_multi_pass` before its loop: the stream interval over
`rows_in` (its removal callback is `remove_row`) and the schedule built from
`assignments_.size()`. -/
def infer_multi_pass_init {Sch : Type} (cap : Capabilities V Mo Mx R Sc) (sched : Schedule Sch)
    (fuel : Nat) (rng : R) (rows_in : List (SparseRow V)) (s : Loom V Mo Mx Sc) :
    Option (Driver V Mo Mx R Sc Sch) :=
  match StreamInterval.create fuel rows_in s.assignments_
      (fun row (st : Loom V Mo Mx Sc × R) => remove_row cap st.2 row st.1) (s, rng) with
  | none => none
  | some (rows, s1, rng1) =>
    some { loom := s1, rows := rows, schedule := sched.create s1.assignments_.size, rng := rng1 }

/-- `Loom::infer_multi_pass`. -/
def infer_multi_pass {Sch : Type} (cap : Capabilities V Mo Mx R Sc) (sched : Schedule Sch)
    (fuel : Nat) (rng : R) (rows_in : List (SparseRow V)) (s : Loom V Mo Mx Sc) :
    Option (Loom V Mo Mx Sc × R) :=
  match infer_multi_pass_init cap sched fuel rng rows_in s with
  | none => none
  | some d =>
    match infer_multi_pass_loop cap sched fuel d with
    | none => none
    | some d1 => some (d1.loom, d1.rng)

/-- The message `protobuf::PreQL::Predict::Query`. -/
structure Query (V : Type) where
  id : Nat
  data : V
  to_predict : List Bool
  sample_count : Nat
deriving DecidableEq, Repr

/-- The message `protobuf::PreQL::Predict::Result`. -/
structure Result (V : Type) where
  id : Nat
  error : Option String
  samples : List V
deriving DecidableEq, Repr

/-- The call `result.Clear()`: every field back to its default. -/
def Result.Clear (_ : Result V) : Result V :=
  { id := 0, error := none, samples := [] }

/-- The call `std::vector::resize(n, val)`. -/
def vector_resize {α : Type} (n : Nat) (val : α) (xs : List α) : List α :=
  xs.take n ++ List.replicate (n - xs.length) val

/-- The inner loop `for (auto & result_values : result_factors)` of `predict_row`:
`sample_value` overwrites entry `i` of every row of `result_factors`. -/
def predict_row_samples (cap : Capabilities V Mo Mx R Sc) (kind : Kind Mo Mx) (probs : Sc)
    (i : Nat) : List (List V) → R → Option (List (List V) × R)
  | [], rng => some ([], rng)
  | result_values :: rest, rng =>
    match result_values[i]? with
    | none => none
    | some v =>
      let (v1, rng1) := cap.sample_value kind.mixture kind.model probs v rng
      match predict_row_samples cap kind probs i rest rng1 with
      | none => none
      | some (rest1, rng2) => some (result_values.set i v1 :: rest1, rng2)

/-- The loop over kinds `i` of `predict_row`, walking `kinds[i]` and
`factors_[i]` together; `scores_to_probs` stands for `scores_to_likelihoods`
followed by `vector_scale` by the inverse total. -/
def predict_row_kinds (cap : Capabilities V Mo Mx R Sc) :
    Nat → List (Kind Mo Mx) → List V → List (List V) → Sc → R →
      Option (List (List V) × Sc × R)
  | _, [], _, result_factors, sc, rng => some (result_factors, sc, rng)
  | i, kind :: kinds, value :: factors, result_factors, sc, rng =>
    match result_factors[0]? with
    | none => none
    | some first =>
      match first[i]? with
      | none => none
      | some v0 =>
        if cap.total_size v0 ≠ 0 then
          let (sc1, rng1) := cap.score kind.mixture kind.model value rng
          let probs := cap.scores_to_probs sc1
          match predict_row_samples cap kind probs i result_factors rng1 with
          | none => none
          | some (result_factors1, rng2) =>
            predict_row_kinds cap (i + 1) kinds factors result_factors1 probs rng2
        else predict_row_kinds cap (i + 1) kinds factors result_factors sc rng
  | _, _ :: _, [], _, _, _ => none

/-- `Loom::predict_row`: the result message, the next state and generator. -/
def predict_row (cap : Capabilities V Mo Mx R Sc) (rng : R) (query : Query V)
    (result : Result V) (s : Loom V Mo Mx Sc) : Option (Result V × Loom V Mo Mx Sc × R) :=
  let result := result.Clear
  let result := { result with id := query.id }
  if !cap.is_valid query.data then
    some ({ result with error := some "invalid query data" }, s, rng)
  else if cap.observed_size query.data ≠ query.to_predict.length then
    some ({ result with error := some "observed size != to_predict size" }, s, rng)
  else
    let sample_count := query.sample_count
    if sample_count = 0 then some (result, s, rng)
    else
      let factors := s.cross_cat_.value_split cap query.data
      let sample :=
        cap.value_resize s.cross_cat_.featureid_to_kindid (cap.sample_of_observed query.to_predict)
      let first := s.cross_cat_.value_split cap sample
      let result_factors := vector_resize sample_count first [first]
      match predict_row_kinds cap 0 s.cross_cat_.kinds factors result_factors s.scores_ rng with
      | none => none
      | some (result_factors1, sc, rng1) =>
        some ({ result with
                samples := result.samples ++
                  result_factors1.map (cap.value_join s.cross_cat_.featureid_to_kindid) },
              { s with factors_ := factors, scores_ := sc }, rng1)

/-- The loop of `Loom::predict`: one result written per query read. -/
def predict (cap : Capabilities V Mo Mx R Sc) :
    List (Query V) → Result V → R → Loom V Mo Mx Sc →
      Option (List (Result V) × Loom V Mo Mx Sc × R)
  | [], _, rng, s => some ([], s, rng)
  | query :: queries, result, rng, s =>
    match predict_row cap rng query result s with
    | none => none
    | some (result1, s1, rng1) =>
      match predict cap queries result1 rng1 s1 with
      | none => none
      | some (results, s2, rng2) => some (result1 :: results, s2, rng2)

end Ops

/-! ## A small concrete collaborator

Used to run the operations on explicit inputs.  Values are lists of naturals,
one entry per feature, feature `i` belonging to kind `i`.  A mixture keeps
`(count, sum)` per group; its id tracker numbers the live groups from
`offset`, the number of groups collected before. -/

/-- Mixture of the concrete collaborator. -/
structure ToyMixture where
  offset : Nat
  groups : List (Nat × Nat)
deriving DecidableEq, Repr

/-- Add `x` to group `g`: one more member, sum increased. -/
def ToyMixture.add (m : ToyMixture) (g x : Nat) : ToyMixture :=
  { m with groups := m.groups.modify (fun cs => (cs.1 + 1, cs.2 + x)) g }

/-- Remove `x` from group `g`: one member fewer, sum decreased. -/
def ToyMixture.remove (m : ToyMixture) (g x : Nat) : ToyMixture :=
  { m with groups := m.groups.modify (fun cs => (cs.1 - 1, cs.2 - x)) g }

/-- The concrete collaborator: scores are counts plus sums, the sampler picks
group `rng % (number of scores)` and steps the generator. -/
def toy : Capabilities (List Nat) Unit ToyMixture Nat (List Nat) where
  value_part := fun _ v i => [v.getD i 0]
  score := fun m _ v rng => (m.groups.map (fun cs => cs.1 + cs.2 + v.sum), rng)
  sample_from_scores_overwrite := fun rng sc => (rng % sc.length, sc, rng + 1)
  add_value := fun m _ g v rng => (m.add g v.sum, rng)
  remove_value := fun m _ g v rng => (m.remove g v.sum, rng)
  packed_to_global := fun m g => g + m.offset
  global_to_packed := fun m gg => gg - m.offset
  is_valid := fun v => v.length == 2
  observed_size := fun v => v.length
  sample_of_observed := fun obs => obs.map (fun b => if b then 1 else 0)
  value_resize := fun _ v => v
  total_size := fun v => v.sum
  scores_to_probs := fun sc => sc
  sample_value := fun m _ probs _ rng => ([probs.sum + m.groups.length], rng + 1)
  value_join := fun _ parts => parts.flatten
  infer_hypers := fun cc rng => (cc, rng)

/-- One kind of the concrete collaborator with two empty groups. -/
def toyKind (offset : Nat) : Kind Unit ToyMixture :=
  { model := (), mixture := { offset := offset, groups := [(0, 0), (0, 0)] } }

/-- A freshly constructed loom with a single kind whose tracker starts at `offset`. -/
def toyLoom (offset : Nat) : Loom (List Nat) Unit ToyMixture (List Nat) :=
  { cross_cat_ := { kinds := [toyKind offset], featureid_to_kindid := [0] }
    algorithm8_ := { model := (), kinds := [{ mixture := { offset := offset, groups := [(0, 0), (0, 0)] } }] }
    assignments_ := Assignments.init 1
    factors_ := [[]]
    scores_ := [] }

/-! ## Vocabulary of the statements -/

/-- The first `n` passes through the loop of `Loom::infer_multi_pass`, stopping
early at its `break`. -/
def infer_multi_pass_steps {V Mo Mx R Sc Sch : Type} (cap : Capabilities V Mo Mx R Sc)
    (sched : Schedule Sch) :
    Nat → Driver V Mo Mx R Sc Sch → Option (Step (Driver V Mo Mx R Sc Sch))
  | 0, d => some (Step.next d)
  | n + 1, d =>
    match infer_multi_pass_step cap sched d with
    | none => none
    | some (Step.done d1) => some (Step.done d1)
    | some (Step.next d1) => infer_multi_pass_steps cap sched n d1

/-- A schedule that replays a fixed list of decisions (`true` is "add"), asks
for "add" once the list is used up, and never flushes. -/
def toySchedule (decisions : List Bool) : Schedule (List Bool) where
  create := fun _ => decisions
  next_action_is_add := fun sch => (sch.headD true, sch.tail)
  time_to_flush := fun sch => (false, sch)

/-- Row `row` stands at index `i` of the log and is the first one with id `id`. -/
def FirstWithId {V : Type} (rows : List (SparseRow V)) (id i : Nat) (row : SparseRow V) : Prop :=
  rows[i]? = some row ∧ row.id = id ∧ ∀ k < i, ∀ r, rows[k]? = some r → r.id ≠ id

/-- What `try_add_row_algorithm8` does to kind `i`: from some generator state a
packed group id `g` is sampled from the scores of the kind-local value
`partial_value` against the kind-local mixture; the kind-local mixture
receives `partial_value` at `g`, the shadow full mixture receives `full_value`
at the same `g`, and the log receives the global form of `g`. -/
def Algorithm8Added {V Mo Mx R Sc : Type} (cap : Capabilities V Mo Mx R Sc) (full_model : Mo)
    (full_value : V) (kind : Kind Mo Mx) (partial_value : V) (full : FullKind Mx)
    (log : List Nat) (kind1 : Kind Mo Mx) (full1 : FullKind Mx) (log1 : List Nat) : Prop :=
  ∃ (rng : R) (g : Nat) (rng_a rng_b : R),
    g = (cap.sample_from_scores_overwrite (cap.score kind.mixture kind.model partial_value rng).2
          (cap.score kind.mixture kind.model partial_value rng).1).1 ∧
    kind1 = { kind with mixture :=
      (cap.add_value kind.mixture kind.model g partial_value rng_a).1 } ∧
    full1 = { full with mixture := (cap.add_value full.mixture full_model g full_value rng_b).1 } ∧
    log1 = log ++ [cap.packed_to_global kind1.mixture g]

/-- Loop of `Loom::remove_row` with the `pop` of the assignment store (its
header is not among the sources) taken as a parameter. -/
def remove_row_kinds_with {V Mo Mx R Sc : Type} (cap : Capabilities V Mo Mx R Sc)
    (pop : List Nat → Option (Nat × List Nat)) :
    List (Kind Mo Mx) → List V → List (List Nat) → R →
      Option (List (Kind Mo Mx) × List (List Nat) × R)
  | [], _, logs, rng => some ([], logs, rng)
  | kind :: kinds, value :: factors, log :: logs, rng =>
    match pop log with
    | none => none
    | some (global_groupid, log1) =>
      let groupid := cap.global_to_packed kind.mixture global_groupid
      let (mixture, rng1) := cap.remove_value kind.mixture kind.model groupid value rng
      match remove_row_kinds_with cap pop kinds factors logs rng1 with
      | none => none
      | some (kinds1, logs1, rng2) =>
        some ({ kind with mixture := mixture } :: kinds1, log1 :: logs1, rng2)
  | _ :: _, [], _, _ => none
  | _ :: _, _ :: _, [], _ => none

/-- `Loom::remove_row` with the store's `pop` taken as a parameter. -/
def remove_row_with {V Mo Mx R Sc : Type} (cap : Capabilities V Mo Mx R Sc)
    (pop : List Nat → Option (Nat × List Nat)) (rng : R) (row : SparseRow V)
    (s : Loom V Mo Mx Sc) : Option (Loom V Mo Mx Sc × R) :=
  match pop s.assignments_.rowids with
  | none => none
  | some (_, rowids) =>
    let factors := s.cross_cat_.value_split cap row.data
    match remove_row_kinds_with cap pop s.cross_cat_.kinds factors s.assignments_.groupids rng with
    | none => none
    | some (kinds, logs, rng1) =>
      some ({ s with cross_cat_ := { s.cross_cat_ with kinds := kinds },
                     assignments_ := { rowids := rowids, groupids := logs },
                     factors_ := factors }, rng1)

/-- Body of the `while (true)` loop of `Loom::infer_multi_pass` with the store's
`pop` taken as a parameter. -/
def infer_multi_pass_step_with {V Mo Mx R Sc Sch : Type} (cap : Capabilities V Mo Mx R Sc)
    (sched : Schedule Sch) (pop : List Nat → Option (Nat × List Nat))
    (d : Driver V Mo Mx R Sc Sch) : Option (Step (Driver V Mo Mx R Sc Sch)) :=
  let (is_add, schedule1) := sched.next_action_is_add d.schedule
  if is_add then
    match d.rows.read_unassigned with
    | none => none
    | some (row, rows1) =>
      match try_add_row cap d.rng row d.loom with
      | none => none
      | some (added, loom1, rng1) =>
        let all_rows_assigned := !added
        let d1 := { d with loom := loom1, rows := rows1, schedule := schedule1, rng := rng1 }
        if all_rows_assigned then some (Step.done d1) else some (Step.next d1)
  else
    match d.rows.read_assigned with
    | none => none
    | some (row, rows1) =>
      match remove_row_with cap pop d.rng row d.loom with
      | none => none
      | some (loom1, rng1) =>
        let (flush, schedule2) := sched.time_to_flush schedule1
        if flush then
          let (cc, rng2) := cap.infer_hypers loom1.cross_cat_ rng1
          some (Step.next { d with loom := { loom1 with cross_cat_ := cc }, rows := rows1,
                                   schedule := schedule2, rng := rng2 })
        else
          some (Step.next { d with loom := loom1, rows := rows1, schedule := schedule2,
                                   rng := rng1 })

/-- Position of a cursor of the row log of length `len` after `t` cyclic reads. -/
def InFile.pos_after (len t : Nat) : Nat :=
  if t = 0 then 0 else (t - 1) % len + 1

/-- Invariant of the loop of `infer_multi_pass` under an oldest-first `pop`: the
assigned rows are the rows the log yields, cyclically, between the reads of
the assigned cursor and those of the unassigned cursor, in that order; the
row-id log and every kind's log list them in the same order, each with the
group id recorded when the row was added. -/
def PassInv {V Mo Mx R Sc Sch : Type} (rows_in : List (SparseRow V))
    (d : Driver V Mo Mx R Sc Sch) (recorded : Nat → Option (List Nat)) : Prop :=
  ∃ (win : List (SparseRow V × List Nat)) (ta : Nat),
    d.rows.unassigned_ =
      { rows := rows_in, pos := InFile.pos_after rows_in.length (ta + win.length) } ∧
    d.rows.assigned_ = { rows := rows_in, pos := InFile.pos_after rows_in.length ta } ∧
    (∀ j e, win[j]? = some e → rows_in[(ta + j) % rows_in.length]? = some e.1) ∧
    d.loom.cross_cat_.kinds.length = d.loom.assignments_.dim ∧
    d.loom.assignments_.rowids = win.map (fun e => e.1.id) ∧
    (∀ k log, d.loom.assignments_.groupids[k]? = some log →
      log = win.map (fun e => e.2.getD k 0)) ∧
    (∀ e ∈ win, recorded e.1.id = some e.2 ∧ e.2.length = d.loom.assignments_.dim)

/-- The successive draws of `sample_value` that `predict_row` makes for one kind:
`n` draws from the kind's mixture with probabilities `probs`, each started
from the template entry `v0`, the generator threaded from one draw to the
next. -/
def sample_draws {V Mo Mx R Sc : Type} (cap : Capabilities V Mo Mx R Sc) (kind : Kind Mo Mx)
    (probs : Sc) (v0 : V) : Nat → R → List V
  | 0, _ => []
  | n + 1, rng =>
    (cap.sample_value kind.mixture kind.model probs v0 rng).1 ::
      sample_draws cap kind probs v0 n (cap.sample_value kind.mixture kind.model probs v0 rng).2

/-- Column `i` of the sampled rows of `predict_row`, for kind `kind` whose
conditioning value is `value` and whose template entry is `v0`: when `v0` has
features to predict, the column is, row after row, the successive draws of
`sample_value` from the kind's mixture, with the probabilities obtained from
the scores of `value` against that mixture and the generator the scoring
left; otherwise every row keeps `v0` at `i`. -/
def SampledColumn {V Mo Mx R Sc : Type} (cap : Capabilities V Mo Mx R Sc) (kind : Kind Mo Mx)
    (value v0 : V) (rows1 : List (List V)) (i : Nat) : Prop :=
  (cap.total_size v0 ≠ 0 →
    ∃ rng_s : R, rows1.map (fun row1 => row1[i]?) =
      (sample_draws cap kind
        (cap.scores_to_probs (cap.score kind.mixture kind.model value rng_s).1) v0
        rows1.length (cap.score kind.mixture kind.model value rng_s).2).map some) ∧
  (cap.total_size v0 = 0 → ∀ row1 ∈ rows1, row1[i]? = some v0)

/-- States reachable from a freshly constructed loom by `try_add_row` calls
(accepted or refused) and by `remove_row` calls on a non-empty store. -/
inductive Reachable {V Mo Mx R Sc : Type} (cap : Capabilities V Mo Mx R Sc) :
    Loom V Mo Mx Sc → Prop where
  | fresh (cc : CrossCat Mo Mx) (alg8 : Algorithm8 Mo Mx) (value0 : V) (scores0 : Sc)
      (s : Loom V Mo Mx Sc) : Loom.create cc alg8 value0 scores0 = some s → Reachable cap s
  | add (s : Loom V Mo Mx Sc) (rng : R) (row : SparseRow V) (b : Bool) (s1 : Loom V Mo Mx Sc)
      (rng1 : R) : Reachable cap s → try_add_row cap rng row s = some (b, s1, rng1) →
      Reachable cap s1
  | remove (s : Loom V Mo Mx Sc) (rng : R) (row : SparseRow V) (s1 : Loom V Mo Mx Sc)
      (rng1 : R) : Reachable cap s → s.assignments_.size ≠ 0 →
      remove_row cap rng row s = some (s1, rng1) → Reachable cap s1

/-- The store invariant: the width is the kind count, and every kind's
group-id log is as long as the row-id log. -/
def StoreInv {V Mo Mx Sc : Type} (s : Loom V Mo Mx Sc) : Prop :=
  s.cross_cat_.kinds.length = s.assignments_.dim ∧
  ∀ log ∈ s.assignments_.groupids, log.length = s.assignments_.rowids.length

/-! ## Duplicate refusal -/

section Proofs

variable {V Mo Mx R Sc : Type}

theorem Assignments.try_push_of_mem {log : List Nat} {id : Nat} (h : id ∈ log) :
    Assignments.try_push log id = (false, log) := by
  simp [Assignments.try_push, h]

theorem Assignments.try_push_of_not_mem {log : List Nat} {id : Nat} (h : id ∉ log) :
    Assignments.try_push log id = (true, log ++ [id]) := by
  simp [Assignments.try_push, h]

theorem try_add_row_of_mem (cap : Capabilities V Mo Mx R Sc) (rng : R) (row : SparseRow V)
    (s : Loom V Mo Mx Sc) (h : row.id ∈ s.assignments_.rowids) :
    try_add_row cap rng row s = some (false, s, rng) := by
  simp [try_add_row, Assignments.try_push_of_mem h]

/-- After `try_add_row` has returned, accepted or refused, the id is registered. -/
theorem try_add_row_registers (cap : Capabilities V Mo Mx R Sc) (rng : R) (row : SparseRow V)
    (s : Loom V Mo Mx Sc) {b : Bool} {s1 : Loom V Mo Mx Sc} {rng1 : R}
    (h : try_add_row cap rng row s = some (b, s1, rng1)) :
    row.id ∈ s1.assignments_.rowids := by
  by_cases hm : row.id ∈ s.assignments_.rowids
  · rw [try_add_row_of_mem cap rng row s hm] at h
    simp only [Option.some.injEq, Prod.mk.injEq] at h
    rw [← h.2.1]; exact hm
  · simp only [try_add_row, Assignments.try_push_of_not_mem hm] at h
    simp only [Bool.not_true, Bool.false_eq_true, if_false] at h
    split at h
    · exact absurd h (by simp)
    · simp only [Option.some.injEq, Prod.mk.injEq] at h
      rw [← h.2.1]; simp

/-- C1: `try_add_row` on a row whose id is already in the row-id log returns
false and leaves the whole state (row-id log, every group-id log, every
mixture, the scratch buffers) and the generator as they were; in particular a
second call with the same row, right after a call that returned, is refused
without any change. -/
theorem try_add_row_refuses_registered (cap : Capabilities V Mo Mx R Sc) (rng : R)
    (row : SparseRow V) (s : Loom V Mo Mx Sc) :
    (row.id ∈ s.assignments_.rowids → try_add_row cap rng row s = some (false, s, rng)) ∧
    (∀ (rng0 : R) (s0 : Loom V Mo Mx Sc) (b : Bool),
      try_add_row cap rng0 row s0 = some (b, s, rng) →
      ∀ rng2 : R, try_add_row cap rng2 row s = some (false, s, rng2)) := by
  refine ⟨try_add_row_of_mem cap rng row s, ?_⟩
  intro rng0 s0 b h rng2
  exact try_add_row_of_mem cap rng2 row s (try_add_row_registers cap rng0 row s0 h)

theorem try_add_row_refuses_registered_witness :
    ∃ s1, try_add_row toy 0 ⟨0, [7]⟩ (toyLoom 5) = some (true, s1, 1) ∧
      try_add_row toy 9 ⟨0, [7]⟩ s1 = some (false, s1, 9) :=
  ⟨_, rfl, (try_add_row_refuses_registered toy 1 ⟨0, [7]⟩ _).2 0 (toyLoom 5) true rfl 9⟩

/-! ## Add / remove round trip -/

theorem CrossCat.value_split_length (cap : Capabilities V Mo Mx R Sc) (cc : CrossCat Mo Mx)
    (value : V) : (cc.value_split cap value).length = cc.kinds.length := by
  simp [CrossCat.value_split]

theorem try_add_row_kinds_cons (cap : Capabilities V Mo Mx R Sc) (kind : Kind Mo Mx)
    (kinds : List (Kind Mo Mx)) (value : V) (factors : List V) (log : List Nat)
    (logs : List (List Nat)) (sc : Sc) (rng : R) :
    try_add_row_kinds cap (kind :: kinds) (value :: factors) (log :: logs) sc rng =
      match try_add_row_kinds cap kinds factors logs (sampled cap kind value rng).2.1
          (added cap kind value rng).2 with
      | none => none
      | some (kinds1, logs1, sc3, rng4) =>
        some ({ kind with mixture := (added cap kind value rng).1 } :: kinds1,
          Assignments.push log
            (cap.packed_to_global (added cap kind value rng).1 (sampled cap kind value rng).1)
            :: logs1, sc3, rng4) :=
  rfl

theorem remove_row_kinds_cons (cap : Capabilities V Mo Mx R Sc) (kind : Kind Mo Mx)
    (kinds : List (Kind Mo Mx)) (value : V) (factors : List V) (log : List Nat)
    (logs : List (List Nat)) (rng : R) :
    remove_row_kinds cap (kind :: kinds) (value :: factors) (log :: logs) rng =
      match Assignments.pop log with
      | none => none
      | some (global_groupid, log1) =>
        match remove_row_kinds cap kinds factors logs
            (cap.remove_value kind.mixture kind.model
              (cap.global_to_packed kind.mixture global_groupid) value rng).2 with
        | none => none
        | some (kinds1, logs1, rng2) =>
          some ({ kind with mixture :=
                    (cap.remove_value kind.mixture kind.model
                      (cap.global_to_packed kind.mixture global_groupid) value rng).1 } :: kinds1,
                log1 :: logs1, rng2) :=
  rfl

theorem try_add_row_of_not_mem (cap : Capabilities V Mo Mx R Sc) {rng : R} {row : SparseRow V}
    {s : Loom V Mo Mx Sc} (hm : row.id ∉ s.assignments_.rowids)
    {kinds1 : List (Kind Mo Mx)} {logs1 : List (List Nat)} {sc1 : Sc} {rng1 : R}
    (hrun : try_add_row_kinds cap s.cross_cat_.kinds (s.cross_cat_.value_split cap row.data)
      s.assignments_.groupids s.scores_ rng = some (kinds1, logs1, sc1, rng1)) :
    try_add_row cap rng row s = some (true,
      { cross_cat_ := { s.cross_cat_ with kinds := kinds1 }
        algorithm8_ := s.algorithm8_
        assignments_ := { rowids := s.assignments_.rowids ++ [row.id], groupids := logs1 }
        factors_ := s.cross_cat_.value_split cap row.data
        scores_ := sc1 }, rng1) := by
  simp only [try_add_row, Assignments.try_push_of_not_mem hm, Bool.not_true,
    Bool.false_eq_true, if_false, hrun]

theorem remove_row_of_some (cap : Capabilities V Mo Mx R Sc) {rng : R} {row : SparseRow V}
    {t : Loom V Mo Mx Sc} {id : Nat} {rowids1 : List Nat}
    (hpop : Assignments.pop t.assignments_.rowids = some (id, rowids1))
    {kinds1 : List (Kind Mo Mx)} {logs1 : List (List Nat)} {rng1 : R}
    (hrun : remove_row_kinds cap t.cross_cat_.kinds (t.cross_cat_.value_split cap row.data)
      t.assignments_.groupids rng = some (kinds1, logs1, rng1)) :
    remove_row cap rng row t = some (
      { cross_cat_ := { t.cross_cat_ with kinds := kinds1 }
        algorithm8_ := t.algorithm8_
        assignments_ := { rowids := rowids1, groupids := logs1 }
        factors_ := t.cross_cat_.value_split cap row.data
        scores_ := t.scores_ }, rng1) := by
  simp only [remove_row, hpop, hrun]

theorem try_add_row_kinds_lengths (cap : Capabilities V Mo Mx R Sc) :
    ∀ (kinds : List (Kind Mo Mx)) (factors : List V) (logs : List (List Nat)) (sc : Sc) (rng : R),
      factors.length = kinds.length → kinds.length = logs.length →
      ∃ kinds1 logs1 sc1 rng1,
        try_add_row_kinds cap kinds factors logs sc rng = some (kinds1, logs1, sc1, rng1) ∧
        kinds1.length = kinds.length ∧
        logs1.map List.length = logs.map (fun log => log.length + 1) := by
  intro kinds
  induction kinds with
  | nil =>
    intro factors logs sc rng _ hl
    cases logs with
    | nil => exact ⟨[], [], sc, rng, by simp [try_add_row_kinds], rfl, rfl⟩
    | cons log logs => simp at hl
  | cons kind kinds ih =>
    intro factors logs sc rng hf hl
    cases factors with
    | nil => simp at hf
    | cons value factors =>
      cases logs with
      | nil => simp at hl
      | cons log logs =>
        simp only [List.length_cons, Nat.add_right_cancel_iff] at hf hl
        obtain ⟨kinds1, logs1, sc3, rng4, hrun, hk, hlen⟩ :=
          ih factors logs (sampled cap kind value rng).2.1 (added cap kind value rng).2 hf hl
        rw [try_add_row_kinds_cons, hrun]
        refine ⟨_, _, _, _, rfl, ?_, ?_⟩
        · simp [hk]
        · simp [hlen, Assignments.push]

theorem Assignments.pop_of_ne_nil {log : List Nat} (h : log ≠ []) :
    ∃ g log1, Assignments.pop log = some (g, log1) ∧ log1.length + 1 = log.length := by
  refine ⟨log.getLast h, log.dropLast, ?_, ?_⟩
  · simp [Assignments.pop, List.getLast?_eq_getLast _ h]
  · rw [List.length_dropLast]
    have : 0 < log.length := List.length_pos.mpr h
    omega

theorem remove_row_kinds_lengths (cap : Capabilities V Mo Mx R Sc) :
    ∀ (kinds : List (Kind Mo Mx)) (factors : List V) (logs : List (List Nat)) (rng : R),
      factors.length = kinds.length → kinds.length = logs.length →
      (∀ log ∈ logs, log ≠ []) →
      ∃ kinds1 logs1 rng1,
        remove_row_kinds cap kinds factors logs rng = some (kinds1, logs1, rng1) ∧
        kinds1.length = kinds.length ∧
        logs1.map (fun log => log.length + 1) = logs.map List.length := by
  intro kinds
  induction kinds with
  | nil =>
    intro factors logs rng _ hl _
    cases logs with
    | nil => exact ⟨[], [], rng, by simp [remove_row_kinds], rfl, rfl⟩
    | cons log logs => simp at hl
  | cons kind kinds ih =>
    intro factors logs rng hf hl hne
    cases factors with
    | nil => simp at hf
    | cons value factors =>
      cases logs with
      | nil => simp at hl
      | cons log logs =>
        simp only [List.length_cons, Nat.add_right_cancel_iff] at hf hl
        obtain ⟨g, log1, hpop, hlog1⟩ :=
          Assignments.pop_of_ne_nil (hne log (List.mem_cons_self _ _))
        obtain ⟨kinds1, logs1, rng2, hrun, hk, hlen⟩ :=
          ih factors logs
            (cap.remove_value kind.mixture kind.model (cap.global_to_packed kind.mixture g)
              value rng).2 hf hl
            (fun l hl1 => hne l (List.mem_cons_of_mem _ hl1))
        rw [remove_row_kinds_cons, hpop]
        simp only [hrun]
        refine ⟨_, _, _, rfl, ?_, ?_⟩
        · simp [hk]
        · simp [hlen, hlog1]

theorem length_eq_of_map_length_succ {logs1 logs : List (List Nat)} {n : Nat}
    (h : logs1.map List.length = logs.map (fun log => log.length + 1))
    (hall : ∀ log ∈ logs, log.length = n) : ∀ log ∈ logs1, log.length = n + 1 := by
  intro log hlog
  have hmem : log.length ∈ logs1.map List.length := List.mem_map_of_mem _ hlog
  rw [h, List.mem_map] at hmem
  obtain ⟨l, hl, hll⟩ := hmem
  rw [← hll, hall l hl]

theorem length_eq_of_map_succ_length {logs1 logs : List (List Nat)} {n : Nat}
    (h : logs1.map (fun log => log.length + 1) = logs.map List.length)
    (hall : ∀ log ∈ logs, log.length = n + 1) : ∀ log ∈ logs1, log.length = n := by
  intro log hlog
  have hmem : log.length + 1 ∈ logs1.map (fun log => log.length + 1) :=
    List.mem_map_of_mem (fun log => log.length + 1) hlog
  rw [h, List.mem_map] at hmem
  obtain ⟨l, hl, hll⟩ := hmem
  have := hall l hl
  omega

/-- Under the store invariant `try_add_row` returns; an accepted call appends one
entry to the row-id log and to every group-id log, a refused one changes
nothing; the invariant holds afterwards. -/
theorem try_add_row_step (cap : Capabilities V Mo Mx R Sc) (s : Loom V Mo Mx Sc)
    (hinv : StoreInv s) (rng : R) (row : SparseRow V) :
    ∃ b s1 rng1, try_add_row cap rng row s = some (b, s1, rng1) ∧ StoreInv s1 ∧
      (b = true → s1.assignments_.rowids.length = s.assignments_.rowids.length + 1 ∧
        s1.assignments_.groupids.map List.length =
          s.assignments_.groupids.map (fun log => log.length + 1)) ∧
      (b = false → s1.assignments_.rowids.length = s.assignments_.rowids.length ∧
        s1.assignments_.groupids.map List.length = s.assignments_.groupids.map List.length) := by
  by_cases hm : row.id ∈ s.assignments_.rowids
  · exact ⟨false, s, rng, try_add_row_of_mem cap rng row s hm, hinv,
      fun h => absurd h (by simp), fun _ => ⟨rfl, rfl⟩⟩
  · obtain ⟨kinds1, logs1, sc1, rng1, hrun, hk, hlen⟩ :=
      try_add_row_kinds_lengths cap s.cross_cat_.kinds (s.cross_cat_.value_split cap row.data)
        s.assignments_.groupids s.scores_ rng (CrossCat.value_split_length cap _ _) hinv.1
    refine ⟨true, _, rng1, try_add_row_of_not_mem cap hm hrun, ⟨?_, ?_⟩, fun _ => ⟨?_, hlen⟩,
      fun h => absurd h (by simp)⟩
    · have h1 := congrArg List.length hlen
      simp only [List.length_map] at h1
      simp only [Assignments.dim, hk, h1]
      exact hinv.1
    · simp only [List.length_append, List.length_singleton]
      exact length_eq_of_map_length_succ hlen hinv.2
    · simp

/-- Under the store invariant `remove_row` on a non-empty store returns and
drops one entry from the row-id log and from every group-id log; the invariant
holds afterwards. -/
theorem remove_row_step (cap : Capabilities V Mo Mx R Sc) (s : Loom V Mo Mx Sc)
    (hinv : StoreInv s) (hsize : s.assignments_.size ≠ 0) (rng : R) (row : SparseRow V) :
    ∃ s1 rng1, remove_row cap rng row s = some (s1, rng1) ∧ StoreInv s1 ∧
      s1.assignments_.rowids.length + 1 = s.assignments_.rowids.length ∧
      s1.assignments_.groupids.map (fun log => log.length + 1) =
        s.assignments_.groupids.map List.length := by
  have hne : s.assignments_.rowids ≠ [] := by
    intro h
    exact hsize (by simp [Assignments.size, h])
  obtain ⟨id, rowids1, hpop, hrow⟩ := Assignments.pop_of_ne_nil hne
  have hlogs : ∀ log ∈ s.assignments_.groupids, log ≠ [] := by
    intro log hlog h
    have := hinv.2 log hlog
    rw [h] at this
    simp only [List.length_nil] at this
    omega
  obtain ⟨kinds1, logs1, rng1, hrun, hk, hlen⟩ :=
    remove_row_kinds_lengths cap s.cross_cat_.kinds (s.cross_cat_.value_split cap row.data)
      s.assignments_.groupids rng (CrossCat.value_split_length cap _ _) hinv.1 hlogs
  refine ⟨_, rng1, remove_row_of_some cap hpop hrun, ⟨?_, ?_⟩, hrow, hlen⟩
  · have h1 := congrArg List.length hlen
    simp only [List.length_map] at h1
    simp only [Assignments.dim, hk, h1]
    exact hinv.1
  · exact length_eq_of_map_succ_length hlen (fun log hlog => by rw [hinv.2 log hlog, hrow])

theorem Loom.create_storeInv (cc : CrossCat Mo Mx) (alg8 : Algorithm8 Mo Mx) (value0 : V)
    (scores0 : Sc) (s : Loom V Mo Mx Sc) (h : Loom.create cc alg8 value0 scores0 = some s) :
    StoreInv s := by
  simp only [Loom.create] at h
  split at h
  · exact absurd h (by simp)
  · simp only [Option.some.injEq] at h
    subst h
    refine ⟨by simp [Assignments.init, Assignments.dim], ?_⟩
    intro log hlog
    simp only [Assignments.init] at hlog
    rw [List.eq_of_mem_replicate hlog]
    rfl

theorem Reachable.storeInv (cap : Capabilities V Mo Mx R Sc) (s : Loom V Mo Mx Sc)
    (h : Reachable cap s) : StoreInv s := by
  induction h with
  | fresh cc alg8 value0 scores0 s hs => exact Loom.create_storeInv cc alg8 value0 scores0 s hs
  | add s rng row b s1 rng1 _ hstep ih =>
    obtain ⟨b2, s2, rng2, h2, hinv2, _⟩ := try_add_row_step cap s ih rng row
    rw [h2] at hstep
    simp only [Option.some.injEq, Prod.mk.injEq] at hstep
    rw [← hstep.2.1]
    exact hinv2
  | remove s rng row s1 rng1 _ hsize hstep ih =>
    obtain ⟨s2, rng2, h2, hinv2, _⟩ := remove_row_step cap s ih hsize rng row
    rw [h2] at hstep
    simp only [Option.some.injEq, Prod.mk.injEq] at hstep
    rw [← hstep.1]
    exact hinv2

/-- C3: in every state reachable from a freshly constructed loom by
`try_add_row` calls and by `remove_row` calls on a non-empty store, every
kind's group-id log is as long as the row-id log (and the width is the kind
count); from such a state `try_add_row` returns, lengthening the row-id log
and each group-id log by exactly one when it accepts and by zero when it
refuses, and `remove_row` on a non-empty store returns, shortening each of
them by exactly one. -/
theorem reachable_logs_equal_length (cap : Capabilities V Mo Mx R Sc) (s : Loom V Mo Mx Sc)
    (h : Reachable cap s) :
    (s.cross_cat_.kinds.length = s.assignments_.dim ∧
      ∀ log ∈ s.assignments_.groupids, log.length = s.assignments_.rowids.length) ∧
    (∀ (rng : R) (row : SparseRow V), ∃ b s1 rng1,
      try_add_row cap rng row s = some (b, s1, rng1) ∧
      (b = true → s1.assignments_.rowids.length = s.assignments_.rowids.length + 1 ∧
        s1.assignments_.groupids.map List.length =
          s.assignments_.groupids.map (fun log => log.length + 1)) ∧
      (b = false → s1.assignments_.rowids.length = s.assignments_.rowids.length ∧
        s1.assignments_.groupids.map List.length =
          s.assignments_.groupids.map List.length)) ∧
    (s.assignments_.size ≠ 0 → ∀ (rng : R) (row : SparseRow V), ∃ s1 rng1,
      remove_row cap rng row s = some (s1, rng1) ∧
      s1.assignments_.rowids.length + 1 = s.assignments_.rowids.length ∧
      s1.assignments_.groupids.map (fun log => log.length + 1) =
        s.assignments_.groupids.map List.length) := by
  have hinv := Reachable.storeInv cap s h
  refine ⟨hinv, ?_, ?_⟩
  · intro rng row
    obtain ⟨b, s1, rng1, h1, _, h2, h3⟩ := try_add_row_step cap s hinv rng row
    exact ⟨b, s1, rng1, h1, h2, h3⟩
  · intro hsize rng row
    obtain ⟨s1, rng1, h1, _, h2, h3⟩ := remove_row_step cap s hinv hsize rng row
    exact ⟨s1, rng1, h1, h2, h3⟩

theorem reachable_logs_equal_length_witness :
    ∃ s1, try_add_row toy 0 ⟨0, [7]⟩ (toyLoom 5) = some (true, s1, 1) ∧ Reachable toy s1 ∧
      ∀ log ∈ s1.assignments_.groupids, log.length = s1.assignments_.rowids.length :=
  ⟨_, rfl, Reachable.add (toyLoom 5) 0 ⟨0, [7]⟩ true _ 1
      (Reachable.fresh { kinds := [toyKind 5], featureid_to_kindid := [0] }
        (toyLoom 5).algorithm8_ [] [] (toyLoom 5) rfl) rfl,
    (reachable_logs_equal_length toy _
      (Reachable.add (toyLoom 5) 0 ⟨0, [7]⟩ true _ 1
        (Reachable.fresh { kinds := [toyKind 5], featureid_to_kindid := [0] }
          (toyLoom 5).algorithm8_ [] [] (toyLoom 5) rfl) rfl)).1.2⟩

/-! ## The assignment record of `add_row` -/

theorem add_row_kinds_cons (cap : Capabilities V Mo Mx R Sc) (kind : Kind Mo Mx)
    (kinds : List (Kind Mo Mx)) (value : V) (factors : List V) (out : List Nat) (sc : Sc)
    (rng : R) :
    add_row_kinds cap (kind :: kinds) (value :: factors) out sc rng =
      match add_row_kinds cap kinds factors (out ++ [(sampled cap kind value rng).1])
          (sampled cap kind value rng).2.1 (added cap kind value rng).2 with
      | none => none
      | some (kinds1, out1, sc3, rng4) =>
        some ({ kind with mixture := (added cap kind value rng).1 } :: kinds1, out1, sc3, rng4) :=
  rfl

theorem add_row_kinds_total (cap : Capabilities V Mo Mx R Sc) :
    ∀ (kinds : List (Kind Mo Mx)) (factors : List V) (out : List Nat) (sc : Sc) (rng : R),
      factors.length = kinds.length →
      ∃ kinds1 out1 sc1 rng1,
        add_row_kinds cap kinds factors out sc rng = some (kinds1, out1, sc1, rng1) ∧
        out1.length = out.length + kinds.length := by
  intro kinds
  induction kinds with
  | nil => intro factors out sc rng _; exact ⟨[], out, sc, rng, by rw [add_row_kinds], rfl⟩
  | cons kind kinds ih =>
    intro factors out sc rng hf
    cases factors with
    | nil => simp at hf
    | cons value factors =>
      simp only [List.length_cons, Nat.add_right_cancel_iff] at hf
      obtain ⟨kinds1, out1, sc1, rng1, hrun, hlen⟩ :=
        ih factors (out ++ [(sampled cap kind value rng).1]) (sampled cap kind value rng).2.1
          (added cap kind value rng).2 hf
      rw [add_row_kinds_cons, hrun]
      refine ⟨_, _, _, _, rfl, ?_⟩
      show out1.length = out.length + (kinds.length + 1)
      rw [hlen, List.length_append, List.length_singleton]
      omega

/-- The record of `add_row` always carries the row's id and one entry per kind. -/
theorem add_row_record_shape (cap : Capabilities V Mo Mx R Sc) (rng : R) (row : SparseRow V)
    (s : Loom V Mo Mx Sc) :
    ∃ assignment s1 rng1, add_row cap rng row s = some (assignment, s1, rng1) ∧
      assignment.rowid = row.id ∧ assignment.groupids.length = s.cross_cat_.kinds.length := by
  obtain ⟨kinds1, out1, sc1, rng1, hrun, hlen⟩ :=
    add_row_kinds_total cap s.cross_cat_.kinds (s.cross_cat_.value_split cap row.data) []
      s.scores_ rng (CrossCat.value_split_length cap _ _)
  simp only [add_row, hrun]
  exact ⟨_, _, _, rfl, rfl, by simpa using hlen⟩

/-- C4 (the code differs): `add_row` writes the sampled packed group id into the
assignment record.  For a kind whose tracker maps packed id 0 to global id 5
the record of row 0 holds `[0]`, while `try_add_row` on the same input logs
the global id `[5]`. -/
theorem add_row_records_packed_groupid :
    (∃ s1 rng1, add_row toy 0 ⟨0, [7]⟩ (toyLoom 5)
        = some ({ rowid := 0, groupids := [0] }, s1, rng1) ∧
      s1.cross_cat_.kinds.map (fun kind => toy.packed_to_global kind.mixture 0) = [5]) ∧
    (∃ s2 rng2, try_add_row toy 0 ⟨0, [7]⟩ (toyLoom 5) = some (true, s2, rng2) ∧
      s2.assignments_.groupids = [[5]]) :=
  ⟨⟨_, _, rfl, rfl⟩, ⟨_, _, rfl, rfl⟩⟩

/-! ## Algorithm 8: both views receive the row -/

theorem try_add_row_algorithm8_kinds_cons (cap : Capabilities V Mo Mx R Sc) (full_model : Mo)
    (full_value : V) (kind : Kind Mo Mx) (kinds : List (Kind Mo Mx)) (partial_value : V)
    (factors : List V) (full : FullKind Mx) (fulls : List (FullKind Mx)) (log : List Nat)
    (logs : List (List Nat)) (sc : Sc) (rng : R) :
    try_add_row_algorithm8_kinds cap full_model full_value (kind :: kinds)
        (partial_value :: factors) (full :: fulls) (log :: logs) sc rng =
      match try_add_row_algorithm8_kinds cap full_model full_value kinds factors fulls logs
          (sampled cap kind partial_value rng).2.1
          (cap.add_value full.mixture full_model (sampled cap kind partial_value rng).1 full_value
            (added cap kind partial_value rng).2).2 with
      | none => none
      | some (kinds1, fulls1, logs1, sc3, rng5) =>
        some ({ kind with mixture := (added cap kind partial_value rng).1 } :: kinds1,
          { full with mixture :=
              (cap.add_value full.mixture full_model (sampled cap kind partial_value rng).1
                full_value (added cap kind partial_value rng).2).1 } :: fulls1,
          Assignments.push log
            (cap.packed_to_global (added cap kind partial_value rng).1
              (sampled cap kind partial_value rng).1) :: logs1, sc3, rng5) :=
  rfl

theorem try_add_row_algorithm8_kinds_total (cap : Capabilities V Mo Mx R Sc) (full_model : Mo)
    (full_value : V) :
    ∀ (kinds : List (Kind Mo Mx)) (factors : List V) (fulls : List (FullKind Mx))
      (logs : List (List Nat)) (sc : Sc) (rng : R),
      factors.length = kinds.length → kinds.length = fulls.length →
      kinds.length = logs.length →
      ∃ res, try_add_row_algorithm8_kinds cap full_model full_value kinds factors fulls logs
        sc rng = some res := by
  intro kinds
  induction kinds with
  | nil => intro factors fulls logs sc rng _ _ _; exact ⟨_, by rw [try_add_row_algorithm8_kinds]⟩
  | cons kind kinds ih =>
    intro factors fulls logs sc rng hf hfl hl
    cases factors with
    | nil => simp at hf
    | cons value factors =>
      cases fulls with
      | nil => simp at hfl
      | cons full fulls =>
        cases logs with
        | nil => simp at hl
        | cons log logs =>
          simp only [List.length_cons, Nat.add_right_cancel_iff] at hf hfl hl
          obtain ⟨res, hres⟩ := ih factors fulls logs (sampled cap kind value rng).2.1
            (cap.add_value full.mixture full_model (sampled cap kind value rng).1 full_value
              (added cap kind value rng).2).2 hf hfl hl
          rw [try_add_row_algorithm8_kinds_cons, hres]
          exact ⟨_, rfl⟩

theorem try_add_row_algorithm8_kinds_at (cap : Capabilities V Mo Mx R Sc) (full_model : Mo)
    (full_value : V) :
    ∀ (kinds : List (Kind Mo Mx)) (factors : List V) (fulls : List (FullKind Mx))
      (logs : List (List Nat)) (sc : Sc) (rng : R) (kinds1 : List (Kind Mo Mx))
      (fulls1 : List (FullKind Mx)) (logs1 : List (List Nat)) (sc1 : Sc) (rng1 : R),
      try_add_row_algorithm8_kinds cap full_model full_value kinds factors fulls logs sc rng
        = some (kinds1, fulls1, logs1, sc1, rng1) →
      ∀ i, i < kinds.length →
        ∃ kind partial_value full log kind1 full1 log1,
          kinds[i]? = some kind ∧ factors[i]? = some partial_value ∧ fulls[i]? = some full ∧
          logs[i]? = some log ∧ kinds1[i]? = some kind1 ∧ fulls1[i]? = some full1 ∧
          logs1[i]? = some log1 ∧
          Algorithm8Added cap full_model full_value kind partial_value full log
            kind1 full1 log1 := by
  intro kinds
  induction kinds with
  | nil => intro _ _ _ _ _ _ _ _ _ _ _ i hi; simp at hi
  | cons kind kinds ih =>
    intro factors fulls logs sc rng kinds1 fulls1 logs1 sc1 rng1 h i hi
    cases factors with
    | nil => simp [try_add_row_algorithm8_kinds] at h
    | cons value factors =>
      cases fulls with
      | nil => simp [try_add_row_algorithm8_kinds] at h
      | cons full fulls =>
        cases logs with
        | nil => simp [try_add_row_algorithm8_kinds] at h
        | cons log logs =>
          rw [try_add_row_algorithm8_kinds_cons] at h
          cases hrec : try_add_row_algorithm8_kinds cap full_model full_value kinds factors
              fulls logs (sampled cap kind value rng).2.1
              (cap.add_value full.mixture full_model (sampled cap kind value rng).1 full_value
                (added cap kind value rng).2).2 with
          | none => rw [hrec] at h; exact absurd h (by simp)
          | some res =>
            obtain ⟨k2, f2, l2, sc2, rng2⟩ := res
            rw [hrec] at h
            simp only [Option.some.injEq, Prod.mk.injEq] at h
            obtain ⟨hk, hfu, hlo, _, _⟩ := h
            subst hk hfu hlo
            cases i with
            | zero =>
              exact ⟨kind, value, full, log, _, _, _, List.getElem?_cons_zero,
                List.getElem?_cons_zero, List.getElem?_cons_zero, List.getElem?_cons_zero,
                List.getElem?_cons_zero, List.getElem?_cons_zero, List.getElem?_cons_zero,
                rng, (sampled cap kind value rng).1, (sampled cap kind value rng).2.2,
                (added cap kind value rng).2, rfl, rfl, rfl, rfl⟩
            | succ i =>
              simp only [List.length_cons, Nat.add_lt_add_iff_right] at hi
              simpa only [List.getElem?_cons_succ] using
                ih factors fulls logs _ _ k2 f2 l2 sc2 rng2 hrec i hi

theorem try_add_row_algorithm8_of_mem (cap : Capabilities V Mo Mx R Sc) (rng : R)
    (row : SparseRow V) (s : Loom V Mo Mx Sc) (h : row.id ∈ s.assignments_.rowids) :
    try_add_row_algorithm8 cap rng row s = some (false, s, rng) := by
  simp [try_add_row_algorithm8, Assignments.try_push_of_mem h]

theorem value_split_getElem? (cap : Capabilities V Mo Mx R Sc) (cc : CrossCat Mo Mx) (value : V)
    (i : Nat) (hi : i < cc.kinds.length) :
    (cc.value_split cap value)[i]? = some (cap.value_part cc.featureid_to_kindid value i) := by
  simp [CrossCat.value_split, List.getElem?_range hi]

/-- C6: for a registered id `try_add_row_algorithm8` returns false without any
change, exactly as `try_add_row` does; for a fresh id (and equal kind counts
and width) it returns true; and whenever it returns true, the id was fresh, it
is appended to the row-id log, and for every kind `i` the kind-local mixture
received the kind-local part of the row and the shadow full mixture received
the full row value at one and the same packed group id, sampled from the
scores of the kind-local mixture, whose global form was appended to the
kind's log. -/
theorem try_add_row_algorithm8_adds_both_views (cap : Capabilities V Mo Mx R Sc) (rng : R)
    (row : SparseRow V) (s : Loom V Mo Mx Sc) :
    (row.id ∈ s.assignments_.rowids →
      try_add_row_algorithm8 cap rng row s = some (false, s, rng) ∧
      try_add_row cap rng row s = some (false, s, rng)) ∧
    (row.id ∉ s.assignments_.rowids →
      s.cross_cat_.kinds.length = s.algorithm8_.kinds.length →
      s.cross_cat_.kinds.length = s.assignments_.dim →
      ∃ s1 rng1, try_add_row_algorithm8 cap rng row s = some (true, s1, rng1)) ∧
    (∀ (s1 : Loom V Mo Mx Sc) (rng1 : R),
      try_add_row_algorithm8 cap rng row s = some (true, s1, rng1) →
      row.id ∉ s.assignments_.rowids ∧
      s1.assignments_.rowids = s.assignments_.rowids ++ [row.id] ∧
      ∀ i, i < s.cross_cat_.kinds.length →
        ∃ kind full log kind1 full1 log1,
          s.cross_cat_.kinds[i]? = some kind ∧ s.algorithm8_.kinds[i]? = some full ∧
          s.assignments_.groupids[i]? = some log ∧
          s1.cross_cat_.kinds[i]? = some kind1 ∧ s1.algorithm8_.kinds[i]? = some full1 ∧
          s1.assignments_.groupids[i]? = some log1 ∧
          Algorithm8Added cap s.algorithm8_.model row.data kind
            (cap.value_part s.cross_cat_.featureid_to_kindid row.data i) full log
            kind1 full1 log1) := by
  refine ⟨fun h => ⟨try_add_row_algorithm8_of_mem cap rng row s h,
    try_add_row_of_mem cap rng row s h⟩, ?_, ?_⟩
  · intro hm hfull hdim
    obtain ⟨res, hres⟩ := try_add_row_algorithm8_kinds_total cap s.algorithm8_.model row.data
      s.cross_cat_.kinds (s.cross_cat_.value_split cap row.data) s.algorithm8_.kinds
      s.assignments_.groupids s.scores_ rng (CrossCat.value_split_length cap _ _) hfull hdim
    obtain ⟨k1, f1, l1, sc1, rng1⟩ := res
    simp only [try_add_row_algorithm8, Assignments.try_push_of_not_mem hm, Bool.not_true,
      Bool.false_eq_true, if_false, hfull, ne_eq, not_true_eq_false, hres]
    exact ⟨_, _, rfl⟩
  · intro s1 rng1 h
    by_cases hm : row.id ∈ s.assignments_.rowids
    · rw [try_add_row_algorithm8_of_mem cap rng row s hm] at h
      simp at h
    · simp only [try_add_row_algorithm8, Assignments.try_push_of_not_mem hm, Bool.not_true,
        Bool.false_eq_true, if_false] at h
      split at h
      · exact absurd h (by simp)
      · cases hrun : try_add_row_algorithm8_kinds cap s.algorithm8_.model row.data
            s.cross_cat_.kinds (s.cross_cat_.value_split cap row.data) s.algorithm8_.kinds
            s.assignments_.groupids s.scores_ rng with
        | none => rw [hrun] at h; exact absurd h (by simp)
        | some res =>
          obtain ⟨k1, f1, l1, sc1, rng2⟩ := res
          rw [hrun] at h
          simp only [Option.some.injEq, Prod.mk.injEq, true_and] at h
          obtain ⟨hs1, _⟩ := h
          subst hs1
          refine ⟨hm, rfl, ?_⟩
          intro i hi
          obtain ⟨kind, pv, full, log, kind1, full1, log1, h1, h2, h3, h4, h5, h6, h7, h8⟩ :=
            try_add_row_algorithm8_kinds_at cap s.algorithm8_.model row.data _ _ _ _ _ _ _ _ _
              _ _ hrun i hi
          rw [value_split_getElem? cap s.cross_cat_ row.data i hi] at h2
          simp only [Option.some.injEq] at h2
          subst h2
          exact ⟨kind, full, log, kind1, full1, log1, h1, h3, h4, h5, h6, h7, h8⟩

theorem try_add_row_algorithm8_adds_both_views_witness :
    ∃ s1, try_add_row_algorithm8 toy 0 ⟨0, [7]⟩ (toyLoom 5) = some (true, s1, 1) ∧
      (0 ∉ (toyLoom 5).assignments_.rowids ∧ s1.assignments_.rowids = [] ++ [0]) ∧
      s1.cross_cat_.kinds.map (fun kind => kind.mixture.groups) = [[(1, 7), (0, 0)]] ∧
      s1.algorithm8_.kinds.map (fun full => full.mixture.groups) = [[(1, 7), (0, 0)]] ∧
      s1.assignments_.groupids = [[5]] :=
  ⟨_, rfl,
    ⟨((try_add_row_algorithm8_adds_both_views toy 0 ⟨0, [7]⟩ (toyLoom 5)).2.2 _ 1 rfl).1,
     ((try_add_row_algorithm8_adds_both_views toy 0 ⟨0, [7]⟩ (toyLoom 5)).2.2 _ 1 rfl).2.1⟩,
    rfl, rfl, rfl⟩

/-! ## The remove step of the drivers -/

/-- With the newest-first `pop` of the specification's wording the remove pass
takes out another row than the one it read: rows 0 and 1 are added to an empty
single-kind loom (to groups 0 and 1), then the schedule asks for a remove; the
assigned cursor emits row 0, and `remove_row` pops row id 1 and group id 1. -/
theorem infer_multi_pass_remove_pops_newest :
    ∃ d0 d2 d3,
      infer_multi_pass_init toy (toySchedule [true, true, false]) 2 0
        [⟨0, [3]⟩, ⟨1, [7]⟩] (toyLoom 0) = some d0 ∧
      infer_multi_pass_steps toy (toySchedule [true, true, false]) 2 d0 = some (Step.next d2) ∧
      d2.loom.assignments_ = { rowids := [0, 1], groupids := [[0, 1]] } ∧
      d2.loom.cross_cat_.kinds.map (fun kind => kind.mixture.groups) = [[(1, 3), (1, 7)]] ∧
      d2.rows.read_assigned.map (fun r => r.1) = some ⟨0, [3]⟩ ∧
      Assignments.pop d2.loom.assignments_.rowids = some (1, [0]) ∧
      infer_multi_pass_step toy (toySchedule [true, true, false]) d2 = some (Step.next d3) ∧
      d3.loom.assignments_ = { rowids := [0], groupids := [[0]] } ∧
      d3.loom.cross_cat_.kinds.map (fun kind => kind.mixture.groups) = [[(1, 3), (0, 4)]] :=
  ⟨_, _, _, rfl, rfl, rfl, rfl, rfl, rfl, rfl, rfl, rfl⟩

theorem remove_row_keeps_algorithm8 (cap : Capabilities V Mo Mx R Sc) (rng : R)
    (row : SparseRow V) (s s1 : Loom V Mo Mx Sc) (rng1 : R)
    (h : remove_row cap rng row s = some (s1, rng1)) : s1.algorithm8_ = s.algorithm8_ := by
  simp only [remove_row] at h
  split at h
  · exact absurd h (by simp)
  · split at h
    · exact absurd h (by simp)
    · simp only [Option.some.injEq, Prod.mk.injEq] at h
      rw [← h.1]

theorem InFile.cyclic_read_stream_of_getElem? (f : InFile V) (row : SparseRow V)
    (h : f.rows[f.pos]? = some row) :
    f.cyclic_read_stream = some (row, { rows := f.rows, pos := f.pos + 1 }) := by
  simp only [InFile.cyclic_read_stream, h]

theorem exists_firstWithId (rows : List (SparseRow V)) (id : Nat)
    (h : ∃ r ∈ rows, r.id = id) : ∃ i row, FirstWithId rows id i row ∧ i < rows.length := by
  induction rows with
  | nil => obtain ⟨r, hr, _⟩ := h; simp at hr
  | cons x xs ih =>
    by_cases hx : x.id = id
    · exact ⟨0, x, ⟨List.getElem?_cons_zero, hx, fun k hk => absurd hk (Nat.not_lt_zero k)⟩,
        by simp⟩
    · obtain ⟨r, hr, hrid⟩ := h
      have hr1 : r ∈ xs := by
        rcases List.mem_cons.mp hr with h1 | h1
        · exact absurd (h1 ▸ hrid) hx
        · exact h1
      obtain ⟨i, row, ⟨h1, h2, h3⟩, hlt⟩ := ih ⟨r, hr1, hrid⟩
      refine ⟨i + 1, row, ⟨by simpa using h1, h2, ?_⟩, by simpa using hlt⟩
      intro k hk r1 hr1
      cases k with
      | zero =>
        simp only [List.getElem?_cons_zero, Option.some.injEq] at hr1
        rw [← hr1]; exact hx
      | succ k =>
        simp only [List.getElem?_cons_succ] at hr1
        exact h3 k (by omega) r1 hr1

theorem getElem?_of_le_of_getElem? {α : Type} (xs : List α) (p i : Nat) (x : α) (hp : p ≤ i)
    (h : xs[i]? = some x) : ∃ y, xs[p]? = some y := by
  have hi : i < xs.length := by
    by_contra hcon
    rw [List.getElem?_eq_none (Nat.le_of_not_lt hcon)] at h
    exact absurd h (by simp)
  exact ⟨xs[p], List.getElem?_eq_getElem (by omega)⟩

theorem StreamInterval.seek_unassigned_spec (target i : Nat) (row : SparseRow V) :
    ∀ (fuel : Nat) (si : StreamInterval V),
      si.unassigned_.rows[i]? = some row → row.id = target →
      (∀ k, si.unassigned_.pos ≤ k → k < i → ∀ r, si.unassigned_.rows[k]? = some r →
        r.id ≠ target) →
      si.unassigned_.pos ≤ i → i - si.unassigned_.pos < fuel →
      StreamInterval.seek_unassigned fuel target si =
        some (row, { si with unassigned_ := { rows := si.unassigned_.rows, pos := i + 1 } }) := by
  intro fuel
  induction fuel with
  | zero => intro si _ _ _ _ hfuel; exact absurd hfuel (Nat.not_lt_zero _)
  | succ fuel ih =>
    intro si hrow hid hmin hle hfuel
    obtain ⟨x, hx⟩ := getElem?_of_le_of_getElem? _ _ _ _ hle hrow
    rw [StreamInterval.seek_unassigned]
    simp only [StreamInterval.read_unassigned,
      InFile.cyclic_read_stream_of_getElem? si.unassigned_ x hx]
    rcases Nat.eq_or_lt_of_le hle with heq | hlt
    · rw [heq, hrow] at hx
      simp only [Option.some.injEq] at hx
      subst hx
      simp only [hid, ne_eq, not_true_eq_false, if_false, heq]
    · have hne : x.id ≠ target := hmin _ (Nat.le_refl _) hlt x hx
      simp only [hne, ne_eq, not_false_eq_true, if_true]
      exact ih { si with unassigned_ := { rows := si.unassigned_.rows,
                                          pos := si.unassigned_.pos + 1 } }
        hrow hid (fun k hk1 hk2 r hr => hmin k (by simp only at hk1; omega) hk2 r hr)
        hlt (by simp only; omega)

theorem StreamInterval.seek_assigned_spec (target i : Nat) (row : SparseRow V) :
    ∀ (fuel : Nat) (si : StreamInterval V),
      si.assigned_.rows[i]? = some row → row.id = target →
      (∀ k, si.assigned_.pos ≤ k → k < i → ∀ r, si.assigned_.rows[k]? = some r →
        r.id ≠ target) →
      si.assigned_.pos ≤ i → i - si.assigned_.pos < fuel →
      StreamInterval.seek_assigned fuel target si =
        some (row, { si with assigned_ := { rows := si.assigned_.rows, pos := i + 1 } }) := by
  intro fuel
  induction fuel with
  | zero => intro si _ _ _ _ hfuel; exact absurd hfuel (Nat.not_lt_zero _)
  | succ fuel ih =>
    intro si hrow hid hmin hle hfuel
    obtain ⟨x, hx⟩ := getElem?_of_le_of_getElem? _ _ _ _ hle hrow
    rw [StreamInterval.seek_assigned]
    simp only [StreamInterval.read_assigned,
      InFile.cyclic_read_stream_of_getElem? si.assigned_ x hx]
    rcases Nat.eq_or_lt_of_le hle with heq | hlt
    · rw [heq, hrow] at hx
      simp only [Option.some.injEq] at hx
      subst hx
      simp only [hid, ne_eq, not_true_eq_false, if_false, heq]
    · have hne : x.id ≠ target := hmin _ (Nat.le_refl _) hlt x hx
      simp only [hne, ne_eq, not_false_eq_true, if_true]
      exact ih { si with assigned_ := { rows := si.assigned_.rows,
                                        pos := si.assigned_.pos + 1 } }
        hrow hid (fun k hk1 hk2 r hr => hmin k (by simp only at hk1; omega) hk2 r hr)
        hlt (by simp only; omega)

theorem StreamInterval.create_of_first {σ : Type} (rows_in : List (SparseRow V))
    (assignments : Assignments) (remove_row : SparseRow V → σ → Option σ) (st : σ)
    (last first i j : Nat) (row_last row_first : SparseRow V)
    (hback : assignments.back = some last) (hfront : assignments.front = some first)
    (hi : FirstWithId rows_in last i row_last) (hj : FirstWithId rows_in first j row_first)
    (fuel : Nat) (hfi : i < fuel) (hfj : j < fuel) :
    StreamInterval.create fuel rows_in assignments remove_row st =
      (remove_row row_first st).map (fun st1 =>
        ({ unassigned_ := { rows := rows_in, pos := i + 1 },
           assigned_ := { rows := rows_in, pos := j + 1 } }, st1)) := by
  have hsize : assignments.size ≠ 0 := by
    intro h
    have hnil : assignments.rowids = [] := List.length_eq_zero.mp h
    simp [Assignments.back, hnil] at hback
  have h1 := StreamInterval.seek_unassigned_spec last i row_last fuel
    { unassigned_ := InFile.start rows_in, assigned_ := InFile.start rows_in }
    hi.1 hi.2.1 (fun k _ hk r hr => hi.2.2 k hk r hr) (Nat.zero_le _) (by simpa [InFile.start] using hfi)
  have h2 := StreamInterval.seek_assigned_spec first j row_first fuel
    { unassigned_ := { rows := rows_in, pos := i + 1 }, assigned_ := InFile.start rows_in }
    hj.1 hj.2.1 (fun k _ hk r hr => hj.2.2 k hk r hr) (Nat.zero_le _) (by simpa [InFile.start] using hfj)
  simp only [InFile.start] at h1 h2
  simp only [StreamInterval.create, hsize, ne_eq, not_false_eq_true, if_true, hback, hfront,
    InFile.start, h1, h2]
  cases remove_row row_first st with
  | none => rfl
  | some st1 => rfl

/-- C8: construction of the stream interval.  With an empty store both cursors
stay at the start of the log and the removal is not invoked.  With a
non-empty store whose last and first assigned ids both occur in the log,
construction with fuel at least the length of the log ends with the
unassigned cursor just past the first row carrying the last assigned id, the
assigned cursor just past the first row carrying the first assigned id, and
the state produced by one invocation of the removal on that first assigned
row; with a removal that records its argument, the record is exactly that one
row. -/
theorem StreamInterval.create_positions {σ : Type} (rows_in : List (SparseRow V))
    (assignments : Assignments) (remove_row : SparseRow V → σ → Option σ) (st : σ) :
    (assignments.size = 0 → ∀ fuel,
      StreamInterval.create fuel rows_in assignments remove_row st =
        some ({ unassigned_ := { rows := rows_in, pos := 0 },
                assigned_ := { rows := rows_in, pos := 0 } }, st)) ∧
    (∀ last first, assignments.back = some last → assignments.front = some first →
      (∃ r ∈ rows_in, r.id = last) → (∃ r ∈ rows_in, r.id = first) →
      ∃ i j row_last row_first,
        FirstWithId rows_in last i row_last ∧ FirstWithId rows_in first j row_first ∧
        ∀ fuel, rows_in.length ≤ fuel →
          StreamInterval.create fuel rows_in assignments remove_row st =
            (remove_row row_first st).map (fun st1 =>
              ({ unassigned_ := { rows := rows_in, pos := i + 1 },
                 assigned_ := { rows := rows_in, pos := j + 1 } }, st1)) ∧
          StreamInterval.create fuel rows_in assignments
              (fun row (calls : List (SparseRow V)) => some (calls ++ [row])) [] =
            some ({ unassigned_ := { rows := rows_in, pos := i + 1 },
                    assigned_ := { rows := rows_in, pos := j + 1 } }, [row_first])) := by
  refine ⟨?_, ?_⟩
  · intro hsize fuel
    simp [StreamInterval.create, hsize, InFile.start]
  · intro last first hback hfront hlast hfirst
    obtain ⟨i, row_last, hi, hilt⟩ := exists_firstWithId rows_in last hlast
    obtain ⟨j, row_first, hj, hjlt⟩ := exists_firstWithId rows_in first hfirst
    refine ⟨i, j, row_last, row_first, hi, hj, ?_⟩
    intro fuel hfuel
    refine ⟨StreamInterval.create_of_first rows_in assignments remove_row st last first i j
      row_last row_first hback hfront hi hj fuel (by omega) (by omega), ?_⟩
    rw [StreamInterval.create_of_first rows_in assignments _ [] last first i j
      row_last row_first hback hfront hi hj fuel (by omega) (by omega)]
    rfl

theorem StreamInterval.create_positions_witness :
    StreamInterval.create 3 [⟨0, [3]⟩, ⟨1, [7]⟩, ⟨2, [4]⟩]
        { rowids := [0, 1], groupids := [[0, 1]] }
        (fun row (calls : List (SparseRow (List Nat))) => some (calls ++ [row])) [] =
      some ({ unassigned_ := { rows := [⟨0, [3]⟩, ⟨1, [7]⟩, ⟨2, [4]⟩], pos := 2 },
              assigned_ := { rows := [⟨0, [3]⟩, ⟨1, [7]⟩, ⟨2, [4]⟩], pos := 1 } },
            [⟨0, [3]⟩]) ∧
    ∃ i j row_last row_first,
      FirstWithId [⟨0, [3]⟩, ⟨1, [7]⟩, ⟨2, [4]⟩] 1 i row_last ∧
      FirstWithId ([⟨0, [3]⟩, ⟨1, [7]⟩, ⟨2, [4]⟩] : List (SparseRow (List Nat))) 0 j row_first :=
  ⟨rfl,
    let ⟨i, j, row_last, row_first, hi, hj, _⟩ :=
      (StreamInterval.create_positions ([⟨0, [3]⟩, ⟨1, [7]⟩, ⟨2, [4]⟩] : List (SparseRow (List Nat)))
        { rowids := [0, 1], groupids := [[0, 1]] }
        (fun row (calls : List (SparseRow (List Nat))) => some (calls ++ [row])) []).2 1 0 rfl rfl
        ⟨⟨1, [7]⟩, by simp, rfl⟩ ⟨⟨0, [3]⟩, by simp, rfl⟩
    ⟨i, j, row_last, row_first, hi, hj⟩⟩

/-! ## Predict -/

theorem predict_row_samples_cons (cap : Capabilities V Mo Mx R Sc) (kind : Kind Mo Mx)
    (probs : Sc) (i : Nat) (result_values : List V) (rest : List (List V)) (rng : R) :
    predict_row_samples cap kind probs i (result_values :: rest) rng =
      match result_values[i]? with
      | none => none
      | some v =>
        match predict_row_samples cap kind probs i rest
            (cap.sample_value kind.mixture kind.model probs v rng).2 with
        | none => none
        | some (rest1, rng2) =>
          some (result_values.set i (cap.sample_value kind.mixture kind.model probs v rng).1
            :: rest1, rng2) :=
  rfl

theorem predict_row_kinds_cons (cap : Capabilities V Mo Mx R Sc) (i : Nat) (kind : Kind Mo Mx)
    (kinds : List (Kind Mo Mx)) (value : V) (factors : List V) (result_factors : List (List V))
    (sc : Sc) (rng : R) :
    predict_row_kinds cap i (kind :: kinds) (value :: factors) result_factors sc rng =
      match result_factors[0]? with
      | none => none
      | some first =>
        match first[i]? with
        | none => none
        | some v0 =>
          if cap.total_size v0 ≠ 0 then
            match predict_row_samples cap kind
                (cap.scores_to_probs (cap.score kind.mixture kind.model value rng).1) i
                result_factors (cap.score kind.mixture kind.model value rng).2 with
            | none => none
            | some (result_factors1, rng2) =>
              predict_row_kinds cap (i + 1) kinds factors result_factors1
                (cap.scores_to_probs (cap.score kind.mixture kind.model value rng).1) rng2
          else predict_row_kinds cap (i + 1) kinds factors result_factors sc rng :=
  rfl

theorem predict_row_samples_total (cap : Capabilities V Mo Mx R Sc) (kind : Kind Mo Mx)
    (probs : Sc) (i n : Nat) (hi : i < n) :
    ∀ (rows : List (List V)) (rng : R), (∀ row ∈ rows, row.length = n) →
      ∃ rows1 rng1, predict_row_samples cap kind probs i rows rng = some (rows1, rng1) ∧
        rows1.length = rows.length ∧ ∀ row ∈ rows1, row.length = n := by
  intro rows
  induction rows with
  | nil =>
    intro rng _
    exact ⟨[], rng, by rw [predict_row_samples], rfl, fun row hrow => by simp at hrow⟩
  | cons row rows ih =>
    intro rng hall
    have hrow : i < row.length := by rw [hall row (List.mem_cons_self _ _)]; exact hi
    obtain ⟨rows1, rng1, hrun, hlen, hall1⟩ :=
      ih (cap.sample_value kind.mixture kind.model probs row[i] rng).2
        (fun r hr => hall r (List.mem_cons_of_mem _ hr))
    rw [predict_row_samples_cons, List.getElem?_eq_getElem hrow]
    simp only [hrun]
    refine ⟨_, _, rfl, by simp [hlen], ?_⟩
    intro r hr
    rcases List.mem_cons.mp hr with h1 | h1
    · rw [h1, List.length_set]; exact hall row (List.mem_cons_self _ _)
    · exact hall1 r h1

theorem predict_row_kinds_total (cap : Capabilities V Mo Mx R Sc) (n : Nat) :
    ∀ (kinds : List (Kind Mo Mx)) (i : Nat) (factors : List V) (rows : List (List V)) (sc : Sc)
      (rng : R), factors.length = kinds.length → i + kinds.length = n → rows ≠ [] →
      (∀ row ∈ rows, row.length = n) →
      ∃ rows1 sc1 rng1, predict_row_kinds cap i kinds factors rows sc rng
          = some (rows1, sc1, rng1) ∧ rows1.length = rows.length := by
  intro kinds
  induction kinds with
  | nil =>
    intro i factors rows sc rng _ _ _ _
    exact ⟨rows, sc, rng, by rw [predict_row_kinds], rfl⟩
  | cons kind kinds ih =>
    intro i factors rows sc rng hf hi hne hall
    cases factors with
    | nil => simp at hf
    | cons value factors =>
      simp only [List.length_cons, Nat.add_right_cancel_iff] at hf
      simp only [List.length_cons] at hi
      cases rows with
      | nil => exact absurd rfl hne
      | cons first rest =>
        have hfirst : i < first.length := by
          rw [hall first (List.mem_cons_self _ _)]; omega
        rw [predict_row_kinds_cons, List.getElem?_cons_zero]
        simp only [List.getElem?_eq_getElem hfirst]
        by_cases hts : cap.total_size first[i] = 0
        · simp only [hts, ne_eq, not_true_eq_false, if_false]
          exact ih (i + 1) factors (first :: rest) sc rng hf (by omega) hne hall
        · simp only [hts, ne_eq, not_false_eq_true, if_true]
          obtain ⟨rows1, rng1, hrun, hlen, hall1⟩ :=
            predict_row_samples_total cap kind
              (cap.scores_to_probs (cap.score kind.mixture kind.model value rng).1) i n
              (by omega) (first :: rest) (cap.score kind.mixture kind.model value rng).2 hall
          simp only [hrun]
          have hne1 : rows1 ≠ [] := by
            intro h
            rw [h] at hlen
            simp at hlen
          obtain ⟨rows2, sc2, rng2, hrun2, hlen2⟩ :=
            ih (i + 1) factors rows1
              (cap.scores_to_probs (cap.score kind.mixture kind.model value rng).1) rng1 hf
              (by omega) hne1 hall1
          exact ⟨rows2, sc2, rng2, hrun2, by rw [hlen2, hlen]⟩

theorem vector_resize_singleton {α : Type} (n : Nat) (hn : n ≠ 0) (x : α) :
    (vector_resize n x [x]).length = n ∧ vector_resize n x [x] ≠ [] ∧
      ∀ y ∈ vector_resize n x [x], y = x := by
  obtain ⟨m, rfl⟩ := Nat.exists_eq_succ_of_ne_zero hn
  refine ⟨by simp [vector_resize], by simp [vector_resize], ?_⟩
  intro y hy
  simp only [vector_resize, List.take_succ_cons, List.take_nil, List.length_singleton,
    List.cons_append, List.nil_append, List.mem_cons, List.mem_replicate] at hy
  rcases hy with h | h
  · exact h
  · exact h.2

theorem predict_row_of_invalid (cap : Capabilities V Mo Mx R Sc) (rng : R) (query : Query V)
    (result : Result V) (s : Loom V Mo Mx Sc) (h : cap.is_valid query.data = false) :
    predict_row cap rng query result s =
      some ({ id := query.id, error := some "invalid query data", samples := [] }, s, rng) := by
  simp [predict_row, h, Result.Clear]

theorem predict_row_of_size_mismatch (cap : Capabilities V Mo Mx R Sc) (rng : R)
    (query : Query V) (result : Result V) (s : Loom V Mo Mx Sc)
    (hvalid : cap.is_valid query.data = true)
    (h : cap.observed_size query.data ≠ query.to_predict.length) :
    predict_row cap rng query result s =
      some ({ id := query.id, error := some "observed size != to_predict size", samples := [] },
        s, rng) := by
  simp [predict_row, hvalid, h, Result.Clear]

theorem predict_row_of_valid (cap : Capabilities V Mo Mx R Sc) (rng : R) (query : Query V)
    (result : Result V) (s : Loom V Mo Mx Sc) (hvalid : cap.is_valid query.data = true)
    (hsize : cap.observed_size query.data = query.to_predict.length) :
    ∃ result1 s1 rng1, predict_row cap rng query result s = some (result1, s1, rng1) ∧
      result1.id = query.id ∧ result1.error = none ∧
      result1.samples.length = query.sample_count := by
  by_cases hn : query.sample_count = 0
  · exact ⟨{ id := query.id, error := none, samples := [] }, s, rng,
      by simp [predict_row, hvalid, hsize, hn, Result.Clear], rfl, rfl, by simp [hn]⟩
  · obtain ⟨hlen, hne, hall⟩ := vector_resize_singleton query.sample_count hn
      (s.cross_cat_.value_split cap
        (cap.value_resize s.cross_cat_.featureid_to_kindid
          (cap.sample_of_observed query.to_predict)))
    obtain ⟨rows1, sc1, rng1, hrun, hlen1⟩ :=
      predict_row_kinds_total cap s.cross_cat_.kinds.length s.cross_cat_.kinds 0
        (s.cross_cat_.value_split cap query.data) _ s.scores_ rng
        (CrossCat.value_split_length cap _ _) (Nat.zero_add _) hne
        (fun row hrow => by rw [hall row hrow]; exact CrossCat.value_split_length cap _ _)
    simp only [predict_row, hvalid, hsize, hn, Bool.not_true, Bool.false_eq_true, if_false,
      ne_eq, not_true_eq_false, hrun]
    exact ⟨_, _, _, rfl, rfl, rfl, by simp [Result.Clear, hlen1, hlen]⟩

theorem predict_row_total (cap : Capabilities V Mo Mx R Sc) (rng : R) (query : Query V)
    (result : Result V) (s : Loom V Mo Mx Sc) :
    ∃ res, predict_row cap rng query result s = some res := by
  by_cases hvalid : cap.is_valid query.data = true
  · by_cases hsize : cap.observed_size query.data = query.to_predict.length
    · obtain ⟨result1, s1, rng1, h, _⟩ := predict_row_of_valid cap rng query result s hvalid hsize
      exact ⟨_, h⟩
    · exact ⟨_, predict_row_of_size_mismatch cap rng query result s hvalid hsize⟩
  · exact ⟨_, predict_row_of_invalid cap rng query result s (by simpa using hvalid)⟩

theorem predict_total (cap : Capabilities V Mo Mx R Sc) :
    ∀ (queries : List (Query V)) (result : Result V) (rng : R) (s : Loom V Mo Mx Sc),
      ∃ results s1 rng1, predict cap queries result rng s = some (results, s1, rng1) ∧
        results.length = queries.length := by
  intro queries
  induction queries with
  | nil => intro result rng s; exact ⟨[], s, rng, rfl, rfl⟩
  | cons query queries ih =>
    intro result rng s
    obtain ⟨⟨result1, s1, rng1⟩, h1⟩ := predict_row_total cap rng query result s
    obtain ⟨results, s2, rng2, h2, hlen⟩ := ih result1 rng1 s1
    refine ⟨result1 :: results, s2, rng2, ?_, by simp [hlen]⟩
    simp only [predict, h1, h2]

/-- C9: `predict_row` always returns a result carrying the query's id; the
result carries an error exactly when the query data fails the schema's
validity check or its observed size differs from its to_predict size, and then
it has no samples and the loom state and generator are unchanged; the loop of
`predict` therefore writes one result per query. -/
theorem predict_row_error_iff_malformed (cap : Capabilities V Mo Mx R Sc) (rng : R)
    (query : Query V) (result : Result V) (s : Loom V Mo Mx Sc) :
    (∃ result1 s1 rng1, predict_row cap rng query result s = some (result1, s1, rng1) ∧
      result1.id = query.id ∧
      (result1.error ≠ none ↔
        (cap.is_valid query.data = false ∨
          cap.observed_size query.data ≠ query.to_predict.length)) ∧
      (result1.error ≠ none → result1.samples = [] ∧ s1 = s ∧ rng1 = rng)) ∧
    (∀ queries : List (Query V), ∃ results s1 rng1,
      predict cap queries result rng s = some (results, s1, rng1) ∧
      results.length = queries.length) := by
  refine ⟨?_, fun queries => predict_total cap queries result rng s⟩
  by_cases hvalid : cap.is_valid query.data = true
  · by_cases hsize : cap.observed_size query.data = query.to_predict.length
    · obtain ⟨result1, s1, rng1, h, hid, herr, _⟩ :=
        predict_row_of_valid cap rng query result s hvalid hsize
      refine ⟨result1, s1, rng1, h, hid, ?_, fun hne => absurd herr hne⟩
      constructor
      · intro hne; exact absurd herr hne
      · intro hor
        rcases hor with h1 | h1
        · rw [hvalid] at h1; exact absurd h1 (by simp)
        · exact absurd hsize h1
    · exact ⟨_, s, rng, predict_row_of_size_mismatch cap rng query result s hvalid hsize, rfl,
        ⟨fun _ => Or.inr hsize, fun _ => by simp⟩, fun _ => ⟨rfl, rfl, rfl⟩⟩
  · have hfalse : cap.is_valid query.data = false := by simpa using hvalid
    exact ⟨_, s, rng, predict_row_of_invalid cap rng query result s hfalse, rfl,
      ⟨fun _ => Or.inl hfalse, fun _ => by simp⟩, fun _ => ⟨rfl, rfl, rfl⟩⟩

theorem predict_row_error_iff_malformed_witness :
    predict_row toy 0 { id := 3, data := [4], to_predict := [true, false], sample_count := 5 }
        { id := 9, error := none, samples := [[1, 2]] } (toyLoom 0) =
      some ({ id := 3, error := some "invalid query data", samples := [] }, toyLoom 0, 0) ∧
    ∃ results s1 rng1,
      predict toy [{ id := 3, data := [4], to_predict := [true, false], sample_count := 5 },
          { id := 4, data := [4, 0], to_predict := [true, false], sample_count := 2 }]
        { id := 9, error := none, samples := [[1, 2]] } 0 (toyLoom 0)
        = some (results, s1, rng1) ∧ results.length = 2 :=
  ⟨rfl, (predict_row_error_iff_malformed toy 0
      { id := 3, data := [4], to_predict := [true, false], sample_count := 5 }
      { id := 9, error := none, samples := [[1, 2]] } (toyLoom 0)).2 _⟩

theorem predict_row_samples_spec (cap : Capabilities V Mo Mx R Sc) (kind : Kind Mo Mx)
    (probs : Sc) (i : Nat) :
    ∀ (rows : List (List V)) (rng : R) (rows1 : List (List V)) (rng1 : R),
      predict_row_samples cap kind probs i rows rng = some (rows1, rng1) →
      rows1.length = rows.length ∧
      ∀ row1 ∈ rows1, ∃ row ∈ rows, ∃ v rng_v, row[i]? = some v ∧
        row1 = row.set i (cap.sample_value kind.mixture kind.model probs v rng_v).1 := by
  intro rows
  induction rows with
  | nil =>
    intro rng rows1 rng1 h
    rw [predict_row_samples] at h
    simp only [Option.some.injEq, Prod.mk.injEq] at h
    rw [← h.1]
    exact ⟨rfl, fun row1 hrow1 => by simp at hrow1⟩
  | cons row rows ih =>
    intro rng rows1 rng1 h
    rw [predict_row_samples_cons] at h
    cases hv : row[i]? with
    | none => rw [hv] at h; exact absurd h (by simp)
    | some v =>
      rw [hv] at h
      cases hrec : predict_row_samples cap kind probs i rows
          (cap.sample_value kind.mixture kind.model probs v rng).2 with
      | none => simp only [hrec] at h; exact absurd h (by simp)
      | some res =>
        obtain ⟨rest1, rng2⟩ := res
        simp only [hrec, Option.some.injEq, Prod.mk.injEq] at h
        obtain ⟨hlen, hall⟩ := ih _ rest1 rng2 hrec
        rw [← h.1]
        refine ⟨by simp [hlen], ?_⟩
        intro row1 hrow1
        rcases List.mem_cons.mp hrow1 with h1 | h1
        · exact ⟨row, List.mem_cons_self _ _, v, rng, hv, h1⟩
        · obtain ⟨r, hr, v1, rng_v, hv1, hr1⟩ := hall row1 h1
          exact ⟨r, List.mem_cons_of_mem _ hr, v1, rng_v, hv1, hr1⟩

theorem predict_row_samples_columns (cap : Capabilities V Mo Mx R Sc) (kind : Kind Mo Mx)
    (probs : Sc) (i : Nat) (v0 : V) :
    ∀ (rows : List (List V)) (rng : R) (rows1 : List (List V)) (rng1 : R),
      predict_row_samples cap kind probs i rows rng = some (rows1, rng1) →
      (∀ row ∈ rows, row[i]? = some v0) →
      rows1.map List.length = rows.map List.length ∧
      (∀ m, m ≠ i → rows1.map (fun r => r[m]?) = rows.map (fun r => r[m]?)) ∧
      rows1.map (fun r => r[i]?) = (sample_draws cap kind probs v0 rows.length rng).map some := by
  intro rows
  induction rows with
  | nil =>
    intro rng rows1 rng1 h _
    rw [predict_row_samples] at h
    simp only [Option.some.injEq, Prod.mk.injEq] at h
    rw [← h.1]
    exact ⟨rfl, fun _ _ => rfl, rfl⟩
  | cons row rows ih =>
    intro rng rows1 rng1 h hall
    have hv : row[i]? = some v0 := hall row (List.mem_cons_self _ _)
    rw [predict_row_samples_cons, hv] at h
    cases hrec : predict_row_samples cap kind probs i rows
        (cap.sample_value kind.mixture kind.model probs v0 rng).2 with
    | none => simp only [hrec] at h; exact absurd h (by simp)
    | some res =>
      obtain ⟨rest1, rng2⟩ := res
      simp only [hrec, Option.some.injEq, Prod.mk.injEq] at h
      obtain ⟨hlen, hkeep, hcol⟩ := ih _ rest1 rng2 hrec
        (fun r hr => hall r (List.mem_cons_of_mem _ hr))
      have hil : i < row.length := by
        obtain ⟨hlt, _⟩ := List.getElem?_eq_some_iff.mp hv
        exact hlt
      rw [← h.1]
      refine ⟨by simp [hlen], ?_, ?_⟩
      · intro m hm
        simp only [List.map_cons, hkeep m hm, List.getElem?_set_ne (Ne.symm hm)]
      · simp only [List.map_cons, List.length_cons, sample_draws, hcol,
          List.getElem?_set_self hil]

/-- What the kind loop of `predict_row` leaves in the rows: row lengths and the
entries before the first kind processed are untouched, and the column of every
kind processed is a `SampledColumn`. -/
theorem predict_row_kinds_spec (cap : Capabilities V Mo Mx R Sc) (first : List V) :
    ∀ (kinds : List (Kind Mo Mx)) (i : Nat) (factors : List V) (rows : List (List V)) (sc : Sc)
      (rng : R) (rows1 : List (List V)) (sc1 : Sc) (rng1 : R),
      predict_row_kinds cap i kinds factors rows sc rng = some (rows1, sc1, rng1) →
      (∀ row ∈ rows, ∀ m, i ≤ m → row[m]? = first[m]?) →
      rows1.map List.length = rows.map List.length ∧
      (∀ m, m < i → rows1.map (fun r => r[m]?) = rows.map (fun r => r[m]?)) ∧
      (∀ k, k < kinds.length → ∃ kind value v0, kinds[k]? = some kind ∧
        factors[k]? = some value ∧ first[i + k]? = some v0 ∧
        SampledColumn cap kind value v0 rows1 (i + k)) := by
  intro kinds
  induction kinds with
  | nil =>
    intro i factors rows sc rng rows1 sc1 rng1 h _
    rw [predict_row_kinds] at h
    simp only [Option.some.injEq, Prod.mk.injEq] at h
    rw [← h.1]
    exact ⟨rfl, fun _ _ => rfl, fun k hk => absurd hk (Nat.not_lt_zero k)⟩
  | cons kind kinds ih =>
    intro i factors rows sc rng rows1 sc1 rng1 h hfirst
    cases factors with
    | nil => simp [predict_row_kinds] at h
    | cons value factors =>
      rw [predict_row_kinds_cons] at h
      cases hr0 : rows[0]? with
      | none => rw [hr0] at h; exact absurd h (by simp)
      | some r0 =>
        rw [hr0] at h
        cases hv0 : r0[i]? with
        | none => simp only [hv0] at h; exact absurd h (by simp)
        | some v0 =>
          simp only [hv0] at h
          have hf0 : first[i]? = some v0 := by
            rw [← hfirst r0 (List.getElem?_mem hr0) i (Nat.le_refl i)]; exact hv0
          have hcol0 : ∀ row ∈ rows, row[i]? = some v0 := by
            intro row hrow
            rw [hfirst row hrow i (Nat.le_refl i)]; exact hf0
          by_cases hts : cap.total_size v0 = 0
          · simp only [hts, ne_eq, not_true_eq_false, if_false] at h
            obtain ⟨hlen, hkeep, hcols⟩ := ih (i + 1) factors rows sc rng rows1 sc1 rng1 h
              (fun row hrow m hm => hfirst row hrow m (by omega))
            refine ⟨hlen, fun m hmi => hkeep m (by omega), ?_⟩
            intro k hk
            cases k with
            | zero =>
              refine ⟨kind, value, v0, List.getElem?_cons_zero, List.getElem?_cons_zero,
                hf0, fun hne => absurd hts hne, ?_⟩
              intro _ row1 hrow1
              have hmem : row1[i]? ∈ rows1.map (fun r => r[i]?) :=
                List.mem_map_of_mem (fun r => r[i]?) hrow1
              rw [hkeep i (Nat.lt_succ_self i), List.mem_map] at hmem
              obtain ⟨row, hrow, heq⟩ := hmem
              rw [Nat.add_zero, ← heq]
              exact hcol0 row hrow
            | succ k =>
              simp only [List.length_cons, Nat.add_lt_add_iff_right] at hk
              obtain ⟨kd, vl, w0, h1, h2, h3, h4⟩ := hcols k hk
              refine ⟨kd, vl, w0, by simpa using h1, by simpa using h2, ?_, ?_⟩
              · rw [show i + (k + 1) = i + 1 + k by omega]; exact h3
              · rw [show i + (k + 1) = i + 1 + k by omega]; exact h4
          · simp only [hts, ne_eq, not_false_eq_true, if_true] at h
            cases hs : predict_row_samples cap kind
                (cap.scores_to_probs (cap.score kind.mixture kind.model value rng).1) i rows
                (cap.score kind.mixture kind.model value rng).2 with
            | none => simp only [hs] at h; exact absurd h (by simp)
            | some res =>
              obtain ⟨rowsA, rngA⟩ := res
              simp only [hs] at h
              obtain ⟨_, hallA⟩ := predict_row_samples_spec cap kind _ i rows _ rowsA rngA hs
              obtain ⟨hlenA, hkeepA, hcolA⟩ :=
                predict_row_samples_columns cap kind _ i v0 rows _ rowsA rngA hs hcol0
              have hfirstA : ∀ row ∈ rowsA, ∀ m, i + 1 ≤ m → row[m]? = first[m]? := by
                intro rowA hrowA m hm
                obtain ⟨row, hrow, v, rng_v, _, hset⟩ := hallA rowA hrowA
                rw [hset, List.getElem?_set_ne (by omega)]
                exact hfirst row hrow m (by omega)
              obtain ⟨hlen, hkeep, hcols⟩ := ih (i + 1) factors rowsA _ rngA rows1 sc1 rng1 h
                hfirstA
              refine ⟨by rw [hlen, hlenA],
                fun m hmi => by rw [hkeep m (by omega), hkeepA m (by omega)], ?_⟩
              intro k hk
              cases k with
              | zero =>
                refine ⟨kind, value, v0, List.getElem?_cons_zero, List.getElem?_cons_zero,
                  hf0, ?_, fun h0 => absurd h0 hts⟩
                intro _
                refine ⟨rng, ?_⟩
                have hl1 : rows1.length = rows.length := by
                  have h1 := congrArg List.length hlen
                  have h2 := congrArg List.length hlenA
                  simp only [List.length_map] at h1 h2
                  rw [h1, h2]
                rw [Nat.add_zero, hkeep i (Nat.lt_succ_self i), hcolA, hl1]
              | succ k =>
                simp only [List.length_cons, Nat.add_lt_add_iff_right] at hk
                obtain ⟨kd, vl, w0, h1, h2, h3, h4⟩ := hcols k hk
                refine ⟨kd, vl, w0, by simpa using h1, by simpa using h2, ?_, ?_⟩
                · rw [show i + (k + 1) = i + 1 + k by omega]; exact h3
                · rw [show i + (k + 1) = i + 1 + k by omega]; exact h4

theorem predict_row_of_valid_pos (cap : Capabilities V Mo Mx R Sc) (rng : R) (query : Query V)
    (result : Result V) (s : Loom V Mo Mx Sc) (hvalid : cap.is_valid query.data = true)
    (hsize : cap.observed_size query.data = query.to_predict.length)
    (hn : query.sample_count ≠ 0) {rows1 : List (List V)} {sc1 : Sc} {rng1 : R}
    (hrun : predict_row_kinds cap 0 s.cross_cat_.kinds (s.cross_cat_.value_split cap query.data)
      (vector_resize query.sample_count
        (s.cross_cat_.value_split cap (cap.value_resize s.cross_cat_.featureid_to_kindid
          (cap.sample_of_observed query.to_predict)))
        [s.cross_cat_.value_split cap (cap.value_resize s.cross_cat_.featureid_to_kindid
          (cap.sample_of_observed query.to_predict))])
      s.scores_ rng = some (rows1, sc1, rng1)) :
    predict_row cap rng query result s =
      some ({ id := query.id, error := none,
              samples := rows1.map (cap.value_join s.cross_cat_.featureid_to_kindid) },
            { s with factors_ := s.cross_cat_.value_split cap query.data, scores_ := sc1 },
            rng1) := by
  simp only [predict_row, hvalid, hsize, hn, Bool.not_true, Bool.false_eq_true, if_false,
    ne_eq, not_true_eq_false, hrun, Result.Clear, List.nil_append]

/-- C10: for a query that passes both validations of `predict_row` and any
requested `sample_count` (zero included), `predict_row` returns a result
without error whose samples are exactly `sample_count` rows, each the join of
one part per kind; for every kind with features to predict the parts are, row
after row, the successive draws of `sample_value` from the kind's mixture with
the probabilities obtained from the scores of the query's observed part
against that mixture, and for every other kind the part is the untouched
template part. -/
theorem predict_row_sample_count (cap : Capabilities V Mo Mx R Sc) (rng : R) (query : Query V)
    (result : Result V) (s : Loom V Mo Mx Sc) (hvalid : cap.is_valid query.data = true)
    (hsize : cap.observed_size query.data = query.to_predict.length) :
    ∃ result1 s1 rng1 rows1, predict_row cap rng query result s = some (result1, s1, rng1) ∧
      result1.error = none ∧ result1.samples.length = query.sample_count ∧
      result1.samples = rows1.map (cap.value_join s.cross_cat_.featureid_to_kindid) ∧
      rows1.length = query.sample_count ∧
      (∀ row1 ∈ rows1, row1.length = s.cross_cat_.kinds.length) ∧
      ∀ i, i < s.cross_cat_.kinds.length → ∃ kind, s.cross_cat_.kinds[i]? = some kind ∧
        SampledColumn cap kind (cap.value_part s.cross_cat_.featureid_to_kindid query.data i)
          (cap.value_part s.cross_cat_.featureid_to_kindid
            (cap.value_resize s.cross_cat_.featureid_to_kindid
              (cap.sample_of_observed query.to_predict)) i) rows1 i := by
  by_cases hn : query.sample_count = 0
  · refine ⟨{ id := query.id, error := none, samples := [] }, s, rng, [],
      by simp [predict_row, hvalid, hsize, hn, Result.Clear], rfl, by simp [hn], rfl,
      by simp [hn], fun row1 hrow1 => by simp at hrow1, ?_⟩
    intro i hi
    exact ⟨s.cross_cat_.kinds[i], List.getElem?_eq_getElem hi,
      fun _ => ⟨rng, rfl⟩, fun _ row1 hrow1 => by simp at hrow1⟩
  · obtain ⟨hlen, hne, hall⟩ := vector_resize_singleton query.sample_count hn
      (s.cross_cat_.value_split cap
        (cap.value_resize s.cross_cat_.featureid_to_kindid
          (cap.sample_of_observed query.to_predict)))
    obtain ⟨rows1, sc1, rng1, hrun, hlen1⟩ :=
      predict_row_kinds_total cap s.cross_cat_.kinds.length s.cross_cat_.kinds 0
        (s.cross_cat_.value_split cap query.data) _ s.scores_ rng
        (CrossCat.value_split_length cap _ _) (Nat.zero_add _) hne
        (fun row hrow => by rw [hall row hrow]; exact CrossCat.value_split_length cap _ _)
    obtain ⟨hlens, _, hcols⟩ :=
      predict_row_kinds_spec cap
        (s.cross_cat_.value_split cap
          (cap.value_resize s.cross_cat_.featureid_to_kindid
            (cap.sample_of_observed query.to_predict)))
        s.cross_cat_.kinds 0 _ _ _ _ rows1 sc1 rng1 hrun
        (fun row hrow m _ => by rw [hall row hrow])
    refine ⟨_, _, rng1, rows1,
      predict_row_of_valid_pos cap rng query result s hvalid hsize hn hrun, rfl,
      by simp [hlen1, hlen], rfl, by rw [hlen1, hlen], ?_, ?_⟩
    · intro row1 hrow1
      have hmem : row1.length ∈ rows1.map List.length := List.mem_map_of_mem _ hrow1
      rw [hlens, List.mem_map] at hmem
      obtain ⟨row, hrow, heq⟩ := hmem
      rw [← heq, hall row hrow]
      exact CrossCat.value_split_length cap _ _
    · intro i hi
      obtain ⟨kind, value, v0, h1, h2, h3, h4⟩ := hcols i hi
      rw [Nat.zero_add] at h3 h4
      rw [value_split_getElem? cap s.cross_cat_ _ i hi] at h2 h3
      simp only [Option.some.injEq] at h2 h3
      subst h2 h3
      exact ⟨kind, h1, h4⟩

theorem predict_row_sample_count_witness :
    (∃ result1 s1 rng1 rows1,
      predict_row toy 0 { id := 4, data := [4, 0], to_predict := [true, false], sample_count := 5 }
        { id := 9, error := none, samples := [[1, 2]] } (toyLoom 0)
        = some (result1, s1, rng1) ∧
      result1.error = none ∧ result1.samples.length = 5 ∧
      result1.samples = rows1.map (toy.value_join [0]) ∧ rows1.length = 5 ∧
      (∀ row1 ∈ rows1, row1.length = 1) ∧
      ∀ i, i < 1 → ∃ kind, (toyLoom 0).cross_cat_.kinds[i]? = some kind ∧
        SampledColumn toy kind (toy.value_part [0] [4, 0] i)
          (toy.value_part [0] (toy.value_resize [0] (toy.sample_of_observed [true, false])) i)
          rows1 i) ∧
    (predict_row toy 0 { id := 4, data := [4, 0], to_predict := [true, false], sample_count := 5 }
        { id := 9, error := none, samples := [[1, 2]] } (toyLoom 0)).map
      (fun r => r.1.samples) = some [[10], [10], [10], [10], [10]] :=
  ⟨predict_row_sample_count toy 0
    { id := 4, data := [4, 0], to_predict := [true, false], sample_count := 5 }
    { id := 9, error := none, samples := [[1, 2]] } (toyLoom 0) rfl rfl, rfl⟩

/-! ## Exit of the multi-pass loop -/

section Exit

variable {Sch : Type}

theorem infer_multi_pass_step_eq (cap : Capabilities V Mo Mx R Sc) (sched : Schedule Sch)
    (d : Driver V Mo Mx R Sc Sch) :
    infer_multi_pass_step cap sched d =
      if (sched.next_action_is_add d.schedule).1 = true then
        match d.rows.read_unassigned with
        | none => none
        | some (row, rows1) =>
          match try_add_row cap d.rng row d.loom with
          | none => none
          | some (added, loom1, rng1) =>
            if (!added) = true then
              some (Step.done { d with loom := loom1, rows := rows1,
                                       schedule := (sched.next_action_is_add d.schedule).2,
                                       rng := rng1 })
            else
              some (Step.next { d with loom := loom1, rows := rows1,
                                       schedule := (sched.next_action_is_add d.schedule).2,
                                       rng := rng1 })
      else
        match d.rows.read_assigned with
        | none => none
        | some (row, rows1) =>
          match remove_row cap d.rng row d.loom with
          | none => none
          | some (loom1, rng1) =>
            if (sched.time_to_flush (sched.next_action_is_add d.schedule).2).1 = true then
              some (Step.next
                { d with loom := { loom1 with cross_cat_ :=
                                     (cap.infer_hypers loom1.cross_cat_ rng1).1 },
                         rows := rows1,
                         schedule := (sched.time_to_flush
                           (sched.next_action_is_add d.schedule).2).2,
                         rng := (cap.infer_hypers loom1.cross_cat_ rng1).2 })
            else
              some (Step.next
                { d with loom := loom1, rows := rows1,
                         schedule := (sched.time_to_flush
                           (sched.next_action_is_add d.schedule).2).2,
                         rng := rng1 }) :=
  rfl

/-- A remove step never ends the loop. -/
theorem infer_multi_pass_step_remove_ne_done (cap : Capabilities V Mo Mx R Sc)
    (sched : Schedule Sch) (d d1 : Driver V Mo Mx R Sc Sch)
    (h : (sched.next_action_is_add d.schedule).1 = false) :
    infer_multi_pass_step cap sched d ≠ some (Step.done d1) := by
  intro hstep
  rw [infer_multi_pass_step_eq] at hstep
  simp only [h, Bool.false_eq_true, if_false] at hstep
  split at hstep
  · exact absurd hstep (by simp)
  · split at hstep
    · exact absurd hstep (by simp)
    · split at hstep <;> simp at hstep

/-- An add step ends the loop exactly when `try_add_row` returns false. -/
theorem infer_multi_pass_step_add (cap : Capabilities V Mo Mx R Sc) (sched : Schedule Sch)
    (d : Driver V Mo Mx R Sc Sch) (h : (sched.next_action_is_add d.schedule).1 = true)
    (row : SparseRow V) (rows1 : StreamInterval V) (added : Bool) (loom1 : Loom V Mo Mx Sc)
    (rng1 : R) (hread : d.rows.read_unassigned = some (row, rows1))
    (hadd : try_add_row cap d.rng row d.loom = some (added, loom1, rng1)) :
    infer_multi_pass_step cap sched d =
      some ((if added then Step.next else Step.done)
        { loom := loom1, rows := rows1,
          schedule := (sched.next_action_is_add d.schedule).2, rng := rng1 }) := by
  rw [infer_multi_pass_step_eq]
  simp only [h, if_true, hread, hadd]
  cases added <;> simp

theorem infer_multi_pass_step_done_iff (cap : Capabilities V Mo Mx R Sc) (sched : Schedule Sch)
    (d d1 : Driver V Mo Mx R Sc Sch) :
    infer_multi_pass_step cap sched d = some (Step.done d1) ↔
      (sched.next_action_is_add d.schedule).1 = true ∧
      ∃ row rows1 loom1 rng1, d.rows.read_unassigned = some (row, rows1) ∧
        try_add_row cap d.rng row d.loom = some (false, loom1, rng1) ∧
        d1 = { loom := loom1, rows := rows1,
               schedule := (sched.next_action_is_add d.schedule).2, rng := rng1 } := by
  constructor
  · intro hstep
    by_cases h : (sched.next_action_is_add d.schedule).1 = true
    · refine ⟨h, ?_⟩
      cases hread : d.rows.read_unassigned with
      | none =>
        rw [infer_multi_pass_step_eq] at hstep
        simp [h, hread] at hstep
      | some r =>
        obtain ⟨row, rows1⟩ := r
        cases hadd : try_add_row cap d.rng row d.loom with
        | none =>
          rw [infer_multi_pass_step_eq] at hstep
          simp [h, hread, hadd] at hstep
        | some q =>
          obtain ⟨added, loom1, rng1⟩ := q
          rw [infer_multi_pass_step_add cap sched d h row rows1 added loom1 rng1 hread hadd]
            at hstep
          cases added with
          | true => simp at hstep
          | false =>
            simp only [Bool.false_eq_true, if_false, Option.some.injEq, Step.done.injEq]
              at hstep
            exact ⟨row, rows1, loom1, rng1, rfl, hadd, hstep.symm⟩
    · exact absurd hstep
        (infer_multi_pass_step_remove_ne_done cap sched d d1 (by simpa using h))
  · rintro ⟨h, row, rows1, loom1, rng1, hread, hadd, rfl⟩
    rw [infer_multi_pass_step_add cap sched d h row rows1 false loom1 rng1 hread hadd]
    simp

theorem infer_multi_pass_loop_of_steps (cap : Capabilities V Mo Mx R Sc) (sched : Schedule Sch) :
    ∀ (n : Nat) (d dn : Driver V Mo Mx R Sc Sch),
      infer_multi_pass_steps cap sched n d = some (Step.next dn) →
      ∀ fuel, infer_multi_pass_loop cap sched (n + fuel) d
        = infer_multi_pass_loop cap sched fuel dn := by
  intro n
  induction n with
  | zero =>
    intro d dn h fuel
    simp only [infer_multi_pass_steps, Option.some.injEq, Step.next.injEq] at h
    rw [h, Nat.zero_add]
  | succ n ih =>
    intro d dn h fuel
    rw [infer_multi_pass_steps] at h
    rw [show n + 1 + fuel = (n + fuel) + 1 by omega, infer_multi_pass_loop]
    cases hstep : infer_multi_pass_step cap sched d with
    | none => rw [hstep] at h; exact absurd h (by simp)
    | some st =>
      cases st with
      | done d2 => rw [hstep] at h; exact absurd h (by simp)
      | next d2 =>
        rw [hstep] at h
        exact ih d2 dn h fuel

theorem infer_multi_pass_loop_eq_some_iff (cap : Capabilities V Mo Mx R Sc)
    (sched : Schedule Sch) :
    ∀ (fuel : Nat) (d d1 : Driver V Mo Mx R Sc Sch),
      infer_multi_pass_loop cap sched fuel d = some d1 ↔
        ∃ n, n < fuel ∧ ∃ dn, infer_multi_pass_steps cap sched n d = some (Step.next dn) ∧
          infer_multi_pass_step cap sched dn = some (Step.done d1) := by
  intro fuel
  induction fuel with
  | zero =>
    intro d d1
    simp [infer_multi_pass_loop]
  | succ fuel ih =>
    intro d d1
    rw [infer_multi_pass_loop]
    cases hstep : infer_multi_pass_step cap sched d with
    | none =>
      constructor
      · intro h; exact absurd h (by simp)
      · rintro ⟨n, _, dn, hn, hdone⟩
        cases n with
        | zero =>
          simp only [infer_multi_pass_steps, Option.some.injEq, Step.next.injEq] at hn
          rw [← hn, hstep] at hdone
          exact absurd hdone (by simp)
        | succ n =>
          rw [infer_multi_pass_steps, hstep] at hn
          exact absurd hn (by simp)
    | some st =>
      cases st with
      | done d2 =>
        constructor
        · intro h
          simp only [Option.some.injEq] at h
          exact ⟨0, Nat.succ_pos _, d, rfl, by rw [hstep, h]⟩
        · rintro ⟨n, _, dn, hn, hdone⟩
          cases n with
          | zero =>
            simp only [infer_multi_pass_steps, Option.some.injEq, Step.next.injEq] at hn
            rw [← hn, hstep] at hdone
            simp only [Option.some.injEq, Step.done.injEq] at hdone
            simp only [hdone]
          | succ n =>
            rw [infer_multi_pass_steps, hstep] at hn
            exact absurd hn (by simp)
      | next d2 =>
        simp only
        rw [ih d2 d1]
        constructor
        · rintro ⟨n, hlt, dn, hn, hdone⟩
          refine ⟨n + 1, Nat.succ_lt_succ hlt, dn, ?_, hdone⟩
          rw [infer_multi_pass_steps, hstep]
          exact hn
        · rintro ⟨n, hlt, dn, hn, hdone⟩
          cases n with
          | zero =>
            simp only [infer_multi_pass_steps, Option.some.injEq, Step.next.injEq] at hn
            rw [← hn, hstep] at hdone
            exact absurd hdone (by simp)
          | succ n =>
            rw [infer_multi_pass_steps, hstep] at hn
            exact ⟨n, Nat.lt_of_succ_lt_succ hlt, dn, hn, hdone⟩

/-- C11: the loop of `infer_multi_pass` as a step relation.  A pass ends the
loop exactly when the schedule asked for an add and `try_add_row` on the row
read from the unassigned cursor returned false; a remove pass never ends it;
an add pass whose `try_add_row` returned true goes round again; the loop
returns a state exactly when, after some number of passes that all went round
again, such a refused add occurs, and as long as passes go round again the
loop just continues from the state reached, whatever the number of passes. -/
theorem infer_multi_pass_exits_at_first_refused_add (cap : Capabilities V Mo Mx R Sc)
    (sched : Schedule Sch) (d : Driver V Mo Mx R Sc Sch) :
    (∀ d1, infer_multi_pass_step cap sched d = some (Step.done d1) ↔
      (sched.next_action_is_add d.schedule).1 = true ∧
      ∃ row rows1 loom1 rng1, d.rows.read_unassigned = some (row, rows1) ∧
        try_add_row cap d.rng row d.loom = some (false, loom1, rng1) ∧
        d1 = { loom := loom1, rows := rows1,
               schedule := (sched.next_action_is_add d.schedule).2, rng := rng1 }) ∧
    ((sched.next_action_is_add d.schedule).1 = false →
      ∀ d1, infer_multi_pass_step cap sched d ≠ some (Step.done d1)) ∧
    (∀ row rows1 loom1 rng1, (sched.next_action_is_add d.schedule).1 = true →
      d.rows.read_unassigned = some (row, rows1) →
      try_add_row cap d.rng row d.loom = some (true, loom1, rng1) →
      infer_multi_pass_step cap sched d =
        some (Step.next { loom := loom1, rows := rows1,
                          schedule := (sched.next_action_is_add d.schedule).2, rng := rng1 })) ∧
    (∀ fuel d1, infer_multi_pass_loop cap sched fuel d = some d1 ↔
      ∃ n, n < fuel ∧ ∃ dn, infer_multi_pass_steps cap sched n d = some (Step.next dn) ∧
        infer_multi_pass_step cap sched dn = some (Step.done d1)) ∧
    (∀ n dn, infer_multi_pass_steps cap sched n d = some (Step.next dn) →
      ∀ fuel, infer_multi_pass_loop cap sched (n + fuel) d
        = infer_multi_pass_loop cap sched fuel dn) := by
  refine ⟨fun d1 => infer_multi_pass_step_done_iff cap sched d d1,
    fun h d1 => infer_multi_pass_step_remove_ne_done cap sched d d1 h, ?_,
    fun fuel d1 => infer_multi_pass_loop_eq_some_iff cap sched fuel d d1,
    fun n dn h => infer_multi_pass_loop_of_steps cap sched n d dn h⟩
  intro row rows1 loom1 rng1 h hread hadd
  rw [infer_multi_pass_step_add cap sched d h row rows1 true loom1 rng1 hread hadd]
  rfl

theorem infer_multi_pass_exits_at_first_refused_add_witness :
    ∃ d1, infer_multi_pass_loop toy (toySchedule [true, true, false]) 9
        { loom := toyLoom 0
          rows := { unassigned_ := InFile.start [⟨0, [3]⟩, ⟨1, [7]⟩],
                    assigned_ := InFile.start [⟨0, [3]⟩, ⟨1, [7]⟩] }
          schedule := [true, true, false]
          rng := 0 } = some d1 ∧
      d1.loom.assignments_.rowids = [0] ∧ d1.schedule = [] :=
  ⟨_, ((infer_multi_pass_exits_at_first_refused_add toy (toySchedule [true, true, false])
      { loom := toyLoom 0
        rows := { unassigned_ := InFile.start [⟨0, [3]⟩, ⟨1, [7]⟩],
                  assigned_ := InFile.start [⟨0, [3]⟩, ⟨1, [7]⟩] }
        schedule := [true, true, false]
        rng := 0 }).2.2.2.1 9 _).mpr ⟨3, by decide, _, rfl, rfl⟩, rfl, rfl⟩

end Exit

/-! ## The remove pass under an oldest-first store -/

section RemovePass

variable {Sch : Type}

theorem remove_row_kinds_with_cons (cap : Capabilities V Mo Mx R Sc)
    (pop : List Nat → Option (Nat × List Nat)) (kind : Kind Mo Mx) (kinds : List (Kind Mo Mx))
    (value : V) (factors : List V) (log : List Nat) (logs : List (List Nat)) (rng : R) :
    remove_row_kinds_with cap pop (kind :: kinds) (value :: factors) (log :: logs) rng =
      match pop log with
      | none => none
      | some (global_groupid, log1) =>
        match remove_row_kinds_with cap pop kinds factors logs
            (cap.remove_value kind.mixture kind.model
              (cap.global_to_packed kind.mixture global_groupid) value rng).2 with
        | none => none
        | some (kinds1, logs1, rng2) =>
          some ({ kind with mixture :=
                    (cap.remove_value kind.mixture kind.model
                      (cap.global_to_packed kind.mixture global_groupid) value rng).1 } :: kinds1,
                log1 :: logs1, rng2) :=
  rfl

/-- With the store's own `pop` the parametrised loop is the loop of `remove_row`. -/
theorem remove_row_kinds_with_pop (cap : Capabilities V Mo Mx R Sc) :
    ∀ (kinds : List (Kind Mo Mx)) (factors : List V) (logs : List (List Nat)) (rng : R),
      remove_row_kinds_with cap Assignments.pop kinds factors logs rng
        = remove_row_kinds cap kinds factors logs rng := by
  intro kinds
  induction kinds with
  | nil => intro factors logs rng; rw [remove_row_kinds_with, remove_row_kinds]
  | cons kind kinds ih =>
    intro factors logs rng
    cases factors with
    | nil => rw [remove_row_kinds_with, remove_row_kinds]
    | cons value factors =>
      cases logs with
      | nil => rw [remove_row_kinds_with, remove_row_kinds]
      | cons log logs =>
        rw [remove_row_kinds_with_cons, remove_row_kinds_cons]
        cases Assignments.pop log with
        | none => rfl
        | some r => simp only [ih]

/-- With the store's own `pop` the parametrised operation is `remove_row`. -/
theorem remove_row_with_pop (cap : Capabilities V Mo Mx R Sc) (rng : R) (row : SparseRow V)
    (s : Loom V Mo Mx Sc) :
    remove_row_with cap Assignments.pop rng row s = remove_row cap rng row s := by
  simp only [remove_row_with, remove_row, remove_row_kinds_with_pop]

theorem succ_mod_eq (t len : Nat) : (t + 1) % len = (t % len + 1) % len := by
  rw [Nat.add_mod t 1 len, Nat.add_mod (t % len) 1 len, Nat.mod_mod]

/-- A cursor that has made `t` cyclic reads next yields row `t % length` of the log. -/
theorem InFile.cyclic_read_stream_after (rows : List (SparseRow V)) (t : Nat)
    (row : SparseRow V) (f1 : InFile V)
    (h : ({ rows := rows, pos := InFile.pos_after rows.length t } : InFile V).cyclic_read_stream
      = some (row, f1)) :
    rows[t % rows.length]? = some row ∧
      f1 = { rows := rows, pos := InFile.pos_after rows.length (t + 1) } := by
  have hpos1 : InFile.pos_after rows.length (t + 1) = t % rows.length + 1 := by
    simp [InFile.pos_after]
  cases t with
  | zero =>
    simp only [InFile.cyclic_read_stream, InFile.pos_after, if_true] at h
    cases h0 : rows[0]? with
    | none => simp only [h0] at h; exact absurd h (by simp)
    | some r =>
      simp only [h0, Option.some.injEq, Prod.mk.injEq] at h
      rw [hpos1, Nat.zero_mod, ← h.1, ← h.2]
      exact ⟨h0, rfl⟩
  | succ t =>
    have hpos : InFile.pos_after rows.length (t + 1) = t % rows.length + 1 := by
      simp [InFile.pos_after]
    rw [hpos] at h
    simp only [InFile.cyclic_read_stream] at h
    have hlen : 0 < rows.length := by
      rcases Nat.eq_zero_or_pos rows.length with h0 | h0
      · have hnil : rows = [] := List.length_eq_zero.mp h0
        subst hnil
        simp at h
      · exact h0
    have hlt : t % rows.length < rows.length := Nat.mod_lt _ hlen
    rw [hpos1, succ_mod_eq t rows.length]
    cases hp : rows[t % rows.length + 1]? with
    | some r =>
      simp only [hp, Option.some.injEq, Prod.mk.injEq] at h
      have hin : t % rows.length + 1 < rows.length := by
        obtain ⟨hlt1, _⟩ := List.getElem?_eq_some_iff.mp hp
        exact hlt1
      rw [Nat.mod_eq_of_lt hin, ← h.1, ← h.2]
      exact ⟨hp, rfl⟩
    | none =>
      simp only [hp] at h
      have hge : rows.length ≤ t % rows.length + 1 := by
        by_contra hcon
        rw [List.getElem?_eq_getElem (Nat.lt_of_not_le hcon)] at hp
        exact absurd hp (by simp)
      have heq : t % rows.length + 1 = rows.length := by omega
      cases h0 : rows[0]? with
      | none => simp only [h0] at h; exact absurd h (by simp)
      | some r =>
        simp only [h0, Option.some.injEq, Prod.mk.injEq] at h
        rw [heq, Nat.mod_self, ← h.1, ← h.2]
        exact ⟨h0, rfl⟩

/-- The add loop appends exactly one entry to every kind's log. -/
theorem try_add_row_kinds_pushes (cap : Capabilities V Mo Mx R Sc) :
    ∀ (kinds : List (Kind Mo Mx)) (factors : List V) (logs : List (List Nat)) (sc : Sc) (rng : R),
      factors.length = kinds.length → kinds.length = logs.length →
      ∃ kinds1 logs1 sc1 rng1,
        try_add_row_kinds cap kinds factors logs sc rng = some (kinds1, logs1, sc1, rng1) ∧
        kinds1.length = kinds.length ∧ logs1.length = logs.length ∧
        ∀ (k : Nat) (log1 : List Nat), logs1[k]? = some log1 →
          ∃ (log : List Nat) (g : Nat), logs[k]? = some log ∧ log1 = log ++ [g] := by
  intro kinds
  induction kinds with
  | nil =>
    intro factors logs sc rng _ hl
    cases logs with
    | nil =>
      exact ⟨[], [], sc, rng, by rw [try_add_row_kinds], rfl, rfl,
        fun k log1 h => by simp at h⟩
    | cons log logs => simp at hl
  | cons kind kinds ih =>
    intro factors logs sc rng hf hl
    cases factors with
    | nil => simp at hf
    | cons value factors =>
      cases logs with
      | nil => simp at hl
      | cons log logs =>
        simp only [List.length_cons, Nat.add_right_cancel_iff] at hf hl
        obtain ⟨kinds1, logs1, sc3, rng4, hrun, hk, hlen, hpush⟩ :=
          ih factors logs (sampled cap kind value rng).2.1 (added cap kind value rng).2 hf hl
        rw [try_add_row_kinds_cons, hrun]
        refine ⟨_, _, _, _, rfl, by simp [hk], by simp [hlen], ?_⟩
        intro k log1 hk1
        cases k with
        | zero =>
          simp only [List.getElem?_cons_zero, Option.some.injEq] at hk1
          exact ⟨log, _, List.getElem?_cons_zero, by rw [← hk1]; rfl⟩
        | succ k =>
          simp only [List.getElem?_cons_succ] at hk1
          obtain ⟨l, g, h1, h2⟩ := hpush k log1 hk1
          exact ⟨l, g, by simpa using h1, h2⟩

/-- Under an oldest-first `pop` the remove loop drops the first entry of every
kind's log. -/
theorem remove_row_kinds_with_front (cap : Capabilities V Mo Mx R Sc)
    (pop : List Nat → Option (Nat × List Nat))
    (hpop : ∀ g rest, pop (g :: rest) = some (g, rest)) :
    ∀ (kinds : List (Kind Mo Mx)) (factors : List V) (logs : List (List Nat)) (rng : R),
      factors.length = kinds.length → kinds.length = logs.length →
      (∀ log ∈ logs, log ≠ []) →
      ∃ kinds1 rng1,
        remove_row_kinds_with cap pop kinds factors logs rng
          = some (kinds1, logs.map List.tail, rng1) ∧
        kinds1.length = kinds.length := by
  intro kinds
  induction kinds with
  | nil =>
    intro factors logs rng _ hl _
    cases logs with
    | nil => exact ⟨[], rng, by rw [remove_row_kinds_with]; rfl, rfl⟩
    | cons log logs => simp at hl
  | cons kind kinds ih =>
    intro factors logs rng hf hl hne
    cases factors with
    | nil => simp at hf
    | cons value factors =>
      cases logs with
      | nil => simp at hl
      | cons log logs =>
        simp only [List.length_cons, Nat.add_right_cancel_iff] at hf hl
        cases log with
        | nil => exact absurd rfl (hne [] (List.mem_cons_self _ _))
        | cons g rest =>
          obtain ⟨kinds1, rng1, hrun, hk⟩ :=
            ih factors logs
              (cap.remove_value kind.mixture kind.model (cap.global_to_packed kind.mixture g)
                value rng).2 hf hl (fun l hl1 => hne l (List.mem_cons_of_mem _ hl1))
          rw [remove_row_kinds_with_cons, hpop]
          simp only [hrun]
          exact ⟨_, _, rfl, by simp [hk]⟩

theorem infer_multi_pass_step_with_eq (cap : Capabilities V Mo Mx R Sc) (sched : Schedule Sch)
    (pop : List Nat → Option (Nat × List Nat)) (d : Driver V Mo Mx R Sc Sch) :
    infer_multi_pass_step_with cap sched pop d =
      if (sched.next_action_is_add d.schedule).1 = true then
        match d.rows.read_unassigned with
        | none => none
        | some (row, rows1) =>
          match try_add_row cap d.rng row d.loom with
          | none => none
          | some (added, loom1, rng1) =>
            if (!added) = true then
              some (Step.done { d with loom := loom1, rows := rows1,
                                       schedule := (sched.next_action_is_add d.schedule).2,
                                       rng := rng1 })
            else
              some (Step.next { d with loom := loom1, rows := rows1,
                                       schedule := (sched.next_action_is_add d.schedule).2,
                                       rng := rng1 })
      else
        match d.rows.read_assigned with
        | none => none
        | some (row, rows1) =>
          match remove_row_with cap pop d.rng row d.loom with
          | none => none
          | some (loom1, rng1) =>
            if (sched.time_to_flush (sched.next_action_is_add d.schedule).2).1 = true then
              some (Step.next
                { d with loom := { loom1 with cross_cat_ :=
                                     (cap.infer_hypers loom1.cross_cat_ rng1).1 },
                         rows := rows1,
                         schedule := (sched.time_to_flush
                           (sched.next_action_is_add d.schedule).2).2,
                         rng := (cap.infer_hypers loom1.cross_cat_ rng1).2 })
            else
              some (Step.next
                { d with loom := loom1, rows := rows1,
                         schedule := (sched.time_to_flush
                           (sched.next_action_is_add d.schedule).2).2,
                         rng := rng1 }) :=
  rfl

/-- With the store's own `pop` the parametrised loop body is that of
`infer_multi_pass`. -/
theorem infer_multi_pass_step_with_pop (cap : Capabilities V Mo Mx R Sc) (sched : Schedule Sch)
    (d : Driver V Mo Mx R Sc Sch) :
    infer_multi_pass_step_with cap sched Assignments.pop d = infer_multi_pass_step cap sched d := by
  rw [infer_multi_pass_step_with_eq, infer_multi_pass_step_eq]
  simp only [remove_row_with_pop]

/-- An add pass that goes round again has had its row accepted. -/
theorem infer_multi_pass_step_with_add_next (cap : Capabilities V Mo Mx R Sc)
    (sched : Schedule Sch) (pop : List Nat → Option (Nat × List Nat))
    (d d1 : Driver V Mo Mx R Sc Sch) (row : SparseRow V) (rows1 : StreamInterval V)
    (hadd : (sched.next_action_is_add d.schedule).1 = true)
    (hread : d.rows.read_unassigned = some (row, rows1))
    (hstep : infer_multi_pass_step_with cap sched pop d = some (Step.next d1)) :
    try_add_row cap d.rng row d.loom = some (true, d1.loom, d1.rng) ∧ d1.rows = rows1 := by
  rw [infer_multi_pass_step_with_eq] at hstep
  simp only [hadd, if_true, hread] at hstep
  cases htry : try_add_row cap d.rng row d.loom with
  | none => simp only [htry] at hstep; exact absurd hstep (by simp)
  | some r =>
    obtain ⟨added, loom1, rng1⟩ := r
    simp only [htry] at hstep
    cases added with
    | false => simp at hstep
    | true =>
      simp only [Bool.not_true, Bool.false_eq_true, if_false, Option.some.injEq,
        Step.next.injEq] at hstep
      rw [← hstep]
      exact ⟨rfl, rfl⟩

/-- A remove pass that returns has read a row and removed it; a flush does not
touch the store. -/
theorem infer_multi_pass_step_with_remove_next (cap : Capabilities V Mo Mx R Sc)
    (sched : Schedule Sch) (pop : List Nat → Option (Nat × List Nat))
    (h_hypers : ∀ cc rng, (cap.infer_hypers cc rng).1.kinds.length = cc.kinds.length)
    (d d1 : Driver V Mo Mx R Sc Sch)
    (hrem : (sched.next_action_is_add d.schedule).1 = false)
    (hstep : infer_multi_pass_step_with cap sched pop d = some (Step.next d1)) :
    ∃ row rows1 loom1 rng1, d.rows.read_assigned = some (row, rows1) ∧
      remove_row_with cap pop d.rng row d.loom = some (loom1, rng1) ∧ d1.rows = rows1 ∧
      d1.loom.assignments_ = loom1.assignments_ ∧
      d1.loom.cross_cat_.kinds.length = loom1.cross_cat_.kinds.length := by
  rw [infer_multi_pass_step_with_eq] at hstep
  simp only [hrem, Bool.false_eq_true, if_false] at hstep
  cases hread : d.rows.read_assigned with
  | none => simp only [hread] at hstep; exact absurd hstep (by simp)
  | some r =>
    obtain ⟨row, rows1⟩ := r
    simp only [hread] at hstep
    cases hrow : remove_row_with cap pop d.rng row d.loom with
    | none => simp only [hrow] at hstep; exact absurd hstep (by simp)
    | some q =>
      obtain ⟨loom1, rng1⟩ := q
      simp only [hrow] at hstep
      refine ⟨row, rows1, loom1, rng1, rfl, hrow, ?_⟩
      by_cases hf : (sched.time_to_flush (sched.next_action_is_add d.schedule).2).1 = true
      · simp only [hf, if_true, Option.some.injEq, Step.next.injEq] at hstep
        rw [← hstep]
        exact ⟨rfl, rfl, h_hypers _ _⟩
      · have hf1 : (sched.time_to_flush (sched.next_action_is_add d.schedule).2).1 = false := by
          simpa using hf
        simp only [hf1, Bool.false_eq_true, if_false, Option.some.injEq, Step.next.injEq]
          at hstep
        rw [← hstep]
        exact ⟨rfl, rfl, rfl⟩

theorem PassInv.start (rows_in : List (SparseRow V)) (d0 : Driver V Mo Mx R Sc Sch)
    (hloom : d0.loom.assignments_ = Assignments.init d0.loom.cross_cat_.kinds.length)
    (hrows : d0.rows = { unassigned_ := { rows := rows_in, pos := 0 },
                         assigned_ := { rows := rows_in, pos := 0 } }) :
    PassInv rows_in d0 (fun _ => none) := by
  refine ⟨[], 0, by rw [hrows]; rfl, by rw [hrows]; rfl, fun j e h => by simp at h,
    by rw [hloom]; simp [Assignments.init, Assignments.dim], by rw [hloom]; rfl, ?_,
    fun e he => by simp at he⟩
  intro k log hk
  rw [hloom] at hk
  simp only [Assignments.init] at hk
  rw [List.eq_of_mem_replicate (List.getElem?_mem hk)]
  rfl

theorem remove_row_with_of_some (cap : Capabilities V Mo Mx R Sc)
    (pop : List Nat → Option (Nat × List Nat)) {rng : R} {row : SparseRow V}
    {t : Loom V Mo Mx Sc} {id : Nat} {rowids1 : List Nat}
    (hpop : pop t.assignments_.rowids = some (id, rowids1))
    {kinds1 : List (Kind Mo Mx)} {logs1 : List (List Nat)} {rng1 : R}
    (hrun : remove_row_kinds_with cap pop t.cross_cat_.kinds
      (t.cross_cat_.value_split cap row.data) t.assignments_.groupids rng
        = some (kinds1, logs1, rng1)) :
    remove_row_with cap pop rng row t = some (
      { cross_cat_ := { t.cross_cat_ with kinds := kinds1 }
        algorithm8_ := t.algorithm8_
        assignments_ := { rowids := rowids1, groupids := logs1 }
        factors_ := t.cross_cat_.value_split cap row.data
        scores_ := t.scores_ }, rng1) := by
  simp only [remove_row_with, hpop, hrun]

theorem getLast?_getD_concat (log : List Nat) (g : Nat) : (log ++ [g]).getLast?.getD 0 = g := by
  simp

/-- An accepted add pass keeps the invariant, with the new row recorded. -/
theorem PassInv.add (cap : Capabilities V Mo Mx R Sc) (sched : Schedule Sch)
    (pop : List Nat → Option (Nat × List Nat)) (rows_in : List (SparseRow V))
    (d d1 : Driver V Mo Mx R Sc Sch) (recorded : Nat → Option (List Nat)) (row : SparseRow V)
    (rows1 : StreamInterval V) (hinv : PassInv rows_in d recorded)
    (hadd : (sched.next_action_is_add d.schedule).1 = true)
    (hread : d.rows.read_unassigned = some (row, rows1))
    (hstep : infer_multi_pass_step_with cap sched pop d = some (Step.next d1)) :
    PassInv rows_in d1 (fun id =>
      if id = row.id then
        some (d1.loom.assignments_.groupids.map (fun log => log.getLast?.getD 0))
      else recorded id) := by
  obtain ⟨win, ta, hu, ha, hwin, hdim, hrow, hlogs, hrec⟩ := hinv
  obtain ⟨htry, hrows1⟩ :=
    infer_multi_pass_step_with_add_next cap sched pop d d1 row rows1 hadd hread hstep
  have hm : row.id ∉ d.loom.assignments_.rowids := by
    intro hmem
    rw [try_add_row_of_mem cap d.rng row d.loom hmem] at htry
    simp at htry
  obtain ⟨kinds1, logs1, sc1, rng1, hrun, hk, hlen, hpush⟩ :=
    try_add_row_kinds_pushes cap d.loom.cross_cat_.kinds
      (d.loom.cross_cat_.value_split cap row.data) d.loom.assignments_.groupids d.loom.scores_
      d.rng (CrossCat.value_split_length cap _ _) hdim
  rw [try_add_row_of_not_mem cap hm hrun] at htry
  simp only [Option.some.injEq, Prod.mk.injEq, true_and] at htry
  obtain ⟨hloom, _⟩ := htry
  -- the read of the unassigned cursor
  simp only [StreamInterval.read_unassigned] at hread
  cases hcur : d.rows.unassigned_.cyclic_read_stream with
  | none => simp only [hcur] at hread; exact absurd hread (by simp)
  | some r =>
    obtain ⟨row2, f1⟩ := r
    simp only [hcur, Option.some.injEq, Prod.mk.injEq] at hread
    obtain ⟨hrow2, hrows2⟩ := hread
    subst hrow2
    rw [hu] at hcur
    obtain ⟨hat, hf1⟩ := InFile.cyclic_read_stream_after rows_in _ row2 f1 hcur
    have hgroup : d1.loom.assignments_.groupids = logs1 := by rw [← hloom]
    refine ⟨win ++ [(row2, logs1.map (fun log => log.getLast?.getD 0))], ta, ?_, ?_, ?_, ?_, ?_,
      ?_, ?_⟩
    · rw [hrows1, ← hrows2, hf1]
      simp only [List.length_append, List.length_singleton, Nat.add_assoc]
    · rw [hrows1, ← hrows2]
      exact ha
    · intro j e hj
      by_cases hjl : j < win.length
      · rw [List.getElem?_append_left hjl] at hj
        exact hwin j e hj
      · rw [List.getElem?_append_right (Nat.le_of_not_lt hjl)] at hj
        have hj0 : j - win.length = 0 := by
          by_contra hne
          obtain ⟨m, hm1⟩ := Nat.exists_eq_succ_of_ne_zero hne
          rw [hm1] at hj
          simp at hj
        rw [hj0] at hj
        simp only [List.getElem?_cons_zero, Option.some.injEq] at hj
        rw [← hj]
        have hjeq : j = win.length := by omega
        rw [hjeq]
        exact hat
    · rw [← hloom]
      simp only [Assignments.dim, hk, hlen]
      exact hdim
    · rw [← hloom]
      simp only [hrow, List.map_append, List.map_cons, List.map_nil]
    · intro k log1 hk1
      rw [hgroup] at hk1
      obtain ⟨log, g, hlog, hlog1⟩ := hpush k log1 hk1
      rw [List.map_append, ← hlogs k log hlog, hlog1]
      simp only [List.map_cons, List.map_nil, List.getD_eq_getElem?_getD, List.getElem?_map,
        hk1, Option.map_some', Option.getD_some, hlog1, getLast?_getD_concat]
    · intro e he
      rw [hgroup]
      have hdim1 : d1.loom.assignments_.dim = d.loom.assignments_.dim := by
        simp only [Assignments.dim, hgroup, hlen]
      rcases List.mem_append.mp he with h1 | h1
      · obtain ⟨hr, hl⟩ := hrec e h1
        have hne : e.1.id ≠ row2.id := by
          intro heq
          apply hm
          rw [hrow, ← heq]
          exact List.mem_map_of_mem (fun e => e.1.id) h1
        simp only [hne, if_false]
        exact ⟨hr, by rw [hl, hdim1]⟩
      · rw [List.mem_singleton] at h1
        subst h1
        exact ⟨if_pos rfl, by simp [Assignments.dim, hgroup]⟩

/-- A remove pass that returns keeps the invariant: the oldest assigned row
leaves the store. -/
theorem PassInv.remove (cap : Capabilities V Mo Mx R Sc) (sched : Schedule Sch)
    (pop : List Nat → Option (Nat × List Nat))
    (hpop : ∀ g rest, pop (g :: rest) = some (g, rest)) (hpop_nil : pop [] = none)
    (h_hypers : ∀ cc rng, (cap.infer_hypers cc rng).1.kinds.length = cc.kinds.length)
    (rows_in : List (SparseRow V)) (d d1 : Driver V Mo Mx R Sc Sch)
    (recorded : Nat → Option (List Nat)) (hinv : PassInv rows_in d recorded)
    (hrem : (sched.next_action_is_add d.schedule).1 = false)
    (hstep : infer_multi_pass_step_with cap sched pop d = some (Step.next d1)) :
    PassInv rows_in d1 recorded := by
  obtain ⟨win, ta, hu, ha, hwin, hdim, hrow, hlogs, hrec⟩ := hinv
  obtain ⟨row, rows1, loom1, rng1, hread, hrw, hrows1, hasg, hkl⟩ :=
    infer_multi_pass_step_with_remove_next cap sched pop h_hypers d d1 hrem hstep
  cases win with
  | nil =>
    simp only [remove_row_with, hrow, List.map_nil, hpop_nil] at hrw
    exact absurd hrw (by simp)
  | cons e win1 =>
    have hpoprow : pop d.loom.assignments_.rowids
        = some (e.1.id, win1.map (fun e => e.1.id)) := by
      rw [hrow]; exact hpop _ _
    have hne : ∀ log ∈ d.loom.assignments_.groupids, log ≠ [] := by
      intro log hlog
      obtain ⟨k, hk⟩ := List.getElem?_of_mem hlog
      rw [hlogs k log hk]
      simp
    obtain ⟨kinds1, rng2, hrun, hk⟩ :=
      remove_row_kinds_with_front cap pop hpop d.loom.cross_cat_.kinds
        (d.loom.cross_cat_.value_split cap row.data) d.loom.assignments_.groupids d.rng
        (CrossCat.value_split_length cap _ _) hdim hne
    rw [remove_row_with_of_some cap pop hpoprow hrun] at hrw
    simp only [Option.some.injEq, Prod.mk.injEq] at hrw
    obtain ⟨hloom, _⟩ := hrw
    simp only [StreamInterval.read_assigned] at hread
    cases hcur : d.rows.assigned_.cyclic_read_stream with
    | none => simp only [hcur] at hread; exact absurd hread (by simp)
    | some r =>
      obtain ⟨row2, f1⟩ := r
      simp only [hcur, Option.some.injEq, Prod.mk.injEq] at hread
      obtain ⟨_, hrows2⟩ := hread
      rw [ha] at hcur
      obtain ⟨_, hf1⟩ := InFile.cyclic_read_stream_after rows_in _ row2 f1 hcur
      have hgroup : d1.loom.assignments_.groupids
          = d.loom.assignments_.groupids.map List.tail := by rw [hasg, ← hloom]
      have hdim1 : d1.loom.assignments_.dim = d.loom.assignments_.dim := by
        simp only [Assignments.dim, hgroup, List.length_map]
      refine ⟨win1, ta + 1, ?_, ?_, ?_, ?_, ?_, ?_, ?_⟩
      · rw [hrows1, ← hrows2, hu]
        simp only [List.length_cons]
        rw [show ta + (win1.length + 1) = ta + 1 + win1.length by omega]
      · rw [hrows1, ← hrows2, hf1]
      · intro j e1 hj
        have h1 := hwin (j + 1) e1 (by simpa using hj)
        rw [show ta + 1 + j = ta + (j + 1) by omega]
        exact h1
      · rw [hkl, ← hloom, hdim1]
        simp only [hk]
        exact hdim
      · rw [hasg, ← hloom]
      · intro k log1 hk1
        rw [hgroup, List.getElem?_map] at hk1
        cases hlk : d.loom.assignments_.groupids[k]? with
        | none => rw [hlk] at hk1; exact absurd hk1 (by simp)
        | some log =>
          rw [hlk] at hk1
          simp only [Option.map_some', Option.some.injEq] at hk1
          rw [← hk1, hlogs k log hlk]
          rfl
      · intro e1 he1
        obtain ⟨hr, hl⟩ := hrec e1 (List.mem_cons_of_mem _ he1)
        exact ⟨hr, by rw [hl, hdim1]⟩

end RemovePass

end Proofs

end loom
